import Mathlib

/-!
Verification development for the SWMM `.out` binary results decoder
(`swmm_utils/out_decoder.py`) and its high-level facade (`swmm_utils/out.py`).

The decoder is shallowly embedded: a file is a list of byte values, a stream
is that list plus a cursor, and every `_read_*` / `_parse_*` method of
`SwmmOutputDecoder` becomes a Lean function threading the stream explicitly.
Fallible paths (the sentinel check, Python `IndexError` on deeply negative
list indices, the backwards footer seek, and date/timedelta overflow) return
`Except DecErr`.

Modelling conventions, noted once here:
* Machine integers are `Int`; a 4-byte little-endian signed read is made
  explicit via `toSigned32` (reduction modulo 2^32, then sign adjustment).
* `float` values are carried as their raw little-endian 32-bit patterns
  (`Nat`); no claim under study depends on float arithmetic, only on which
  entries are floats, and Python's `0.0` default corresponds to pattern 0.
* Labels are modelled as Python models strings: sequences of Unicode code
  points.  The length-prefixed bytes are decoded with `utf-8` and
  `errors="replace"` — `utf8DecodeReplace` reproduces CPython exactly,
  one U+FFFD per maximal subpart of an ill-formed subsequence — and then
  trailing NUL code points are stripped, as `rstrip("\x00")` does.  The
  decode is not injective (distinct invalid bytes all yield U+FFFD), so
  label equality, and with it dict-key collapse, is the decoded-string
  equality the program uses.
* `datetime` values are whole seconds from 0001-01-01 00:00 (proleptic
  Gregorian, as Python's `datetime` uses); `timedelta` values are whole
  seconds.  Python's range limits on both types are modelled explicitly so
  that `OverflowError` in time-index construction is observable.
* Python `dict` is an insertion-ordered association list: assigning to an
  existing key replaces its value in place, a new key is appended.
-/

namespace SwmmUtils

set_option maxRecDepth 100000

/-- A byte stream: the full file contents plus a forward cursor, mirroring
the open binary file handle the Python decoder reads from. -/
structure ByteStream where
  data : List Nat
  pos : Nat
deriving DecidableEq, Repr

/-- Interpret a natural number as a signed 32-bit value (two's complement),
as `struct.unpack("<i", ...)` does. -/
def toSigned32 (u : Nat) : Int :=
  let r := u % 4294967296
  if r < 2147483648 then (r : Int) else (r : Int) - 4294967296

/-- The little-endian accumulation of a list of bytes (first byte least
significant). -/
def leValue : List Nat → Nat
  | [] => 0
  | b :: bs => b + 256 * leValue bs

/-- Bytes available from the cursor, at most `n` of them, mirroring
`f.read(n)`. -/
def ByteStream.readBytes (s : ByteStream) (n : Nat) : List Nat :=
  (s.data.drop s.pos).take n

/-- Advance the cursor by `n`, clamped at end of file, as a Python file
read does. -/
def ByteStream.advance (s : ByteStream) (n : Nat) : ByteStream :=
  { s with pos := min (s.pos + n) s.data.length }

/-- Source `SwmmOutputDecoder._read_int`: read 4 bytes as little-endian signed
int32, returning 0 when fewer than 4 bytes remain. -/
def readInt (s : ByteStream) : Int × ByteStream :=
  let b := s.readBytes 4
  if b.length < 4 then (0, s.advance 4)
  else (toSigned32 (leValue b), s.advance 4)

/-- Source `SwmmOutputDecoder._read_float`: read 4 bytes as a little-endian IEEE
single; the value is carried as its 32-bit pattern, and the short-read
default `0.0` is the zero pattern. -/
def readFloatBits (s : ByteStream) : Nat × ByteStream :=
  let b := s.readBytes 4
  if b.length < 4 then (0, s.advance 4)
  else (leValue b, s.advance 4)

/-- Source `SwmmOutputDecoder._read_n_ints`. -/
def readNInts : Nat → ByteStream → List Int × ByteStream
  | 0, s => ([], s)
  | n + 1, s =>
    let (v, s1) := readInt s
    let (vs, s2) := readNInts n s1
    (v :: vs, s2)

/-! ### Code tables and Python list indexing -/

def MAGIC_NUMBER : Int := 516114522

def FLOW_UNITS : List String := ["CFS", "GPM", "MGD", "CMS", "LPS", "MLD"]

def CONCENTRATION_UNITS : List String := ["MG", "UG", "COUNTS"]

def NODE_TYPES : List String := ["JUNCTION", "OUTFALL", "STORAGE", "DIVIDER"]

def LINK_TYPES : List String := ["CONDUIT", "PUMP", "ORIFICE", "WEIR", "OUTLET"]

def PROPERTY_LABELS : List String := ["type", "area", "invert", "max_depth", "offset", "length"]

/-- Errors the decoder can surface, mirroring the Python exceptions:
`ValueError` for the sentinel check, `IndexError` for list indexing,
`OSError` for an out-of-range backwards seek, `OverflowError` for
date/timedelta arithmetic out of range. -/
inductive DecErr where
  | formatError
  | indexError
  | seekError
  | overflowError
deriving DecidableEq, Repr

/-- The index a Python negative index refers to: `i + len` when `i < 0`. -/
def pyIndex (len : Nat) (i : Int) : Int :=
  if i < 0 then i + len else i

/-- Python list indexing `xs[i]` on a list of strings: a negative index
counts from the end; an index out of range after that adjustment raises
`IndexError`. -/
def pyGetStr (xs : List String) (i : Int) : Except DecErr String :=
  if h : 0 ≤ pyIndex xs.length i ∧ (pyIndex xs.length i).toNat < xs.length then
    .ok (xs.get ⟨(pyIndex xs.length i).toNat, h.2⟩)
  else .error .indexError

/-- The decoder's uniform resolution idiom
`table[code] if code < len(table) else fallback`: the guard admits every
negative code, so those hit Python indexing. -/
def resolveCode (table : List String) (code : Int) (fallback : String) :
    Except DecErr String :=
  if code < (table.length : Int) then pyGetStr table code else .ok fallback

/-! ### Python dict as an insertion-ordered association list -/

/-- A Python `dict`: key/value pairs in insertion order. -/
abbrev PyDict (κ α : Type) := List (κ × α)

/-- Python key lookup `d[k]` / `k in d`, by equality on keys. -/
def dictFind [DecidableEq κ] : PyDict κ α → κ → Option α
  | [], _ => none
  | p :: d, k => if p.1 = k then some p.2 else dictFind d k

/-- Python `d[k] = v`: replace in place when the key is present, append
otherwise. -/
def dictInsert [DecidableEq κ] (d : PyDict κ α) (k : κ) (v : α) : PyDict κ α :=
  if (dictFind d k).isSome then
    d.map (fun p => if p.1 = k then (k, v) else p)
  else d ++ [(k, v)]

/-- Run a list of assignments `d[k] = v` in order, starting from `d`. -/
def insertList [DecidableEq κ] (d : PyDict κ α) (ps : List (κ × α)) : PyDict κ α :=
  ps.foldl (fun d p => dictInsert d p.1 p.2) d

/-- Build a dict by successive assignments from a pair list. -/
def foldInsert [DecidableEq κ] (ps : List (κ × α)) : PyDict κ α :=
  insertList [] ps

/-- The key list of a dict, in order. -/
def dictKeys (d : PyDict κ α) : List κ := d.map Prod.fst

/-- The value attached to the last pair of the list carrying key `k`. -/
def lastVal [DecidableEq κ] : List (κ × α) → κ → Option α
  | [], _ => none
  | p :: ps, k => (lastVal ps k).orElse (fun _ => if p.1 = k then some p.2 else none)

/-- First-occurrence deduplication continuing from an accumulator. -/
def firstDedupFrom [DecidableEq κ] (acc : List κ) (l : List κ) : List κ :=
  l.foldl (fun acc a => if a ∈ acc then acc else acc ++ [a]) acc

/-- First-occurrence deduplication: the key order a Python dict ends with
after assigning each key of the list in turn. -/
def firstDedup [DecidableEq κ] (l : List κ) : List κ :=
  firstDedupFrom [] l

/-! ### Calendar arithmetic (Python `datetime` / `timedelta`) -/

/-- Gregorian leap-year rule. -/
def isLeap (y : Int) : Bool :=
  y % 4 == 0 && (y % 100 != 0 || y % 400 == 0)

/-- Days in a month (month 1..12); 0 outside that range. -/
def daysInMonth (y m : Int) : Int :=
  if m = 1 then 31
  else if m = 2 then (if isLeap y then 29 else 28)
  else if m = 3 then 31
  else if m = 4 then 30
  else if m = 5 then 31
  else if m = 6 then 30
  else if m = 7 then 31
  else if m = 8 then 31
  else if m = 9 then 30
  else if m = 10 then 31
  else if m = 11 then 30
  else if m = 12 then 31
  else 0

/-- Days in all years before year `y` (proleptic Gregorian, year 1 first). -/
def daysBeforeYear (y : Int) : Int :=
  let n := y - 1
  365 * n + n / 4 - n / 100 + n / 400

/-- Days in the months of year `y` before month `m` (month 1..12), the
cumulative table plus the leap-day correction past February. -/
def daysBeforeMonth (y m : Int) : Int :=
  (if m = 1 then 0
   else if m = 2 then 31
   else if m = 3 then 59
   else if m = 4 then 90
   else if m = 5 then 120
   else if m = 6 then 151
   else if m = 7 then 181
   else if m = 8 then 212
   else if m = 9 then 243
   else if m = 10 then 273
   else if m = 11 then 304
   else if m = 12 then 334
   else 0) +
    (if 2 < m ∧ m ≤ 12 ∧ isLeap y then 1 else 0)

/-- Whole seconds from 0001-01-01 00:00 to the given calendar fields. -/
def dtSecs (y mo d h mi : Int) : Int :=
  (((daysBeforeYear y + daysBeforeMonth y mo + (d - 1)) * 24 + h) * 60 + mi) * 60

/-- The validity test `datetime(year, month, day, hour, minute)` applies;
outside it the constructor raises `ValueError`. -/
def validDatetime (y mo d h mi : Int) : Bool :=
  1 ≤ y && y ≤ 9999 && 1 ≤ mo && mo ≤ 12 && 1 ≤ d && d ≤ daysInMonth y mo &&
    0 ≤ h && h ≤ 23 && 0 ≤ mi && mi ≤ 59

/-- Largest whole-second instant not beyond `datetime.max`
(9999-12-31 23:59:59.999999): the last second of day ordinal 3652059. -/
def dtMaxSecs : Int := 3652058 * 86400 + 86399

/-- Python `timedelta` bounds in whole seconds: normalized days must lie in
[-999999999, 999999999]. -/
def tdMinSecs : Int := -999999999 * 86400

def tdMaxSecs : Int := 999999999 * 86400 + 86399

/-! ### Labels -/

/-- An object label: the code points of the decoded Python string (see
the header comment on label modelling). -/
abbrev Label := List Nat

/-- Continuation-byte test, `0x80 <= c <= 0xBF`. -/
def isCont (c : Nat) : Bool := 128 ≤ c && c < 192

/-- Lower bound of the first continuation byte allowed after lead `b`
(0xA0 after 0xE0, 0x90 after 0xF0, else 0x80), excluding overlong
encodings. -/
def cont1lo (b : Nat) : Nat :=
  if b = 224 then 160 else if b = 240 then 144 else 128

/-- One past the upper bound of the first continuation byte allowed after
lead `b` (0x9F after 0xED, 0x8F after 0xF4, else 0xBF), excluding
surrogates and values past U+10FFFF. -/
def cont1hi (b : Nat) : Nat :=
  if b = 237 then 160 else if b = 244 then 144 else 192

/-- Whether `c1` is a valid first continuation byte for lead `b`. -/
def validC1 (b c1 : Nat) : Bool := cont1lo b ≤ c1 && c1 < cont1hi b

/-- Two-byte lead, `0xC2..0xDF` (0xC0/0xC1 only encode overlongs). -/
def isLead2 (b : Nat) : Bool := 194 ≤ b && b < 224

/-- Three-byte lead, `0xE0..0xEF`. -/
def isLead3 (b : Nat) : Bool := 224 ≤ b && b < 240

/-- Four-byte lead, `0xF0..0xF4` (0xF5 and above exceed U+10FFFF). -/
def isLead4 (b : Nat) : Bool := 240 ≤ b && b < 245

/-- Scalar value of a two-byte sequence. -/
def cp2 (b c1 : Nat) : Nat := (b - 192) * 64 + (c1 - 128)

/-- Scalar value of a three-byte sequence. -/
def cp3 (b c1 c2 : Nat) : Nat :=
  (b - 224) * 4096 + (c1 - 128) * 64 + (c2 - 128)

/-- Scalar value of a four-byte sequence. -/
def cp4 (b c1 c2 c3 : Nat) : Nat :=
  (b - 240) * 262144 + (c1 - 128) * 4096 + (c2 - 128) * 64 + (c3 - 128)

/-- CPython `bytes.decode("utf-8", errors="replace")` on a byte list,
yielding the code points of the resulting string.  Follows the
maximal-subpart rule CPython implements: a valid sequence yields its
scalar value, and each ill-formed subsequence yields one U+FFFD (65533)
for its longest prefix of a valid sequence — a stray continuation byte,
an invalid lead (0xC0/0xC1/0xF5..0xFF), a lead whose next byte falls
outside that lead's constrained range, or a truncated valid prefix at
end of input.  The shorter list patterns below are the truncation cases
of the full pattern. -/
def utf8DecodeReplace : List Nat → List Nat
  | [] => []
  | [b] => if b < 128 then [b] else [65533]
  | [b, c1] =>
    if b < 128 then b :: utf8DecodeReplace [c1]
    else if isLead2 b then
      if validC1 b c1 then [cp2 b c1] else 65533 :: utf8DecodeReplace [c1]
    else if isLead3 b then
      if validC1 b c1 then [65533] else 65533 :: utf8DecodeReplace [c1]
    else if isLead4 b then
      if validC1 b c1 then [65533] else 65533 :: utf8DecodeReplace [c1]
    else 65533 :: utf8DecodeReplace [c1]
  | [b, c1, c2] =>
    if b < 128 then b :: utf8DecodeReplace [c1, c2]
    else if isLead2 b then
      if validC1 b c1 then cp2 b c1 :: utf8DecodeReplace [c2]
      else 65533 :: utf8DecodeReplace [c1, c2]
    else if isLead3 b then
      if validC1 b c1 then
        if isCont c2 then [cp3 b c1 c2] else 65533 :: utf8DecodeReplace [c2]
      else 65533 :: utf8DecodeReplace [c1, c2]
    else if isLead4 b then
      if validC1 b c1 then
        if isCont c2 then [65533] else 65533 :: utf8DecodeReplace [c2]
      else 65533 :: utf8DecodeReplace [c1, c2]
    else 65533 :: utf8DecodeReplace [c1, c2]
  | b :: c1 :: c2 :: c3 :: rest =>
    if b < 128 then b :: utf8DecodeReplace (c1 :: c2 :: c3 :: rest)
    else if isLead2 b then
      if validC1 b c1 then cp2 b c1 :: utf8DecodeReplace (c2 :: c3 :: rest)
      else 65533 :: utf8DecodeReplace (c1 :: c2 :: c3 :: rest)
    else if isLead3 b then
      if validC1 b c1 then
        if isCont c2 then cp3 b c1 c2 :: utf8DecodeReplace (c3 :: rest)
        else 65533 :: utf8DecodeReplace (c2 :: c3 :: rest)
      else 65533 :: utf8DecodeReplace (c1 :: c2 :: c3 :: rest)
    else if isLead4 b then
      if validC1 b c1 then
        if isCont c2 then
          if isCont c3 then cp4 b c1 c2 c3 :: utf8DecodeReplace rest
          else 65533 :: utf8DecodeReplace (c3 :: rest)
        else 65533 :: utf8DecodeReplace (c2 :: c3 :: rest)
      else 65533 :: utf8DecodeReplace (c1 :: c2 :: c3 :: rest)
    else 65533 :: utf8DecodeReplace (c1 :: c2 :: c3 :: rest)

/-- The `rstrip("\x00")` step: strip trailing NUL code points from the
decoded string. -/
def stripTrailingZeros (l : List Nat) : List Nat :=
  (l.reverse.dropWhile (fun b => b == 0)).reverse

/-- One iteration of `SwmmOutputDecoder._read_string_array`: an int32
length, then, when the length is positive, that many bytes decoded with
`utf-8`/`errors="replace"` and stripped of trailing NULs (an empty
string and no bytes otherwise). -/
def readStringOne (s : ByteStream) : Label × ByteStream :=
  let (len, s1) := readInt s
  if 0 < len then
    (stripTrailingZeros (utf8DecodeReplace (s1.readBytes len.toNat)),
      s1.advance len.toNat)
  else ([], s1)

def readStringArrayAux : Nat → ByteStream → List Label × ByteStream
  | 0, s => ([], s)
  | n + 1, s =>
    let (x, s1) := readStringOne s
    let (xs, s2) := readStringArrayAux n s1
    (x :: xs, s2)

/-- Source `SwmmOutputDecoder._read_string_array`: `range(n)` iterations, so a
negative count reads nothing. -/
def readStringArray (s : ByteStream) (n : Int) : List Label × ByteStream :=
  readStringArrayAux n.toNat s

/-! ### Dates -/

/-- Source `SwmmOutputDecoder._read_datetime`: five int32 fields; an invalid
combination falls back to 2000-01-01 00:00 instead of raising. -/
def readDatetime (s : ByteStream) : Int × ByteStream :=
  let (y, s1) := readInt s
  let (mo, s2) := readInt s1
  let (d, s3) := readInt s2
  let (h, s4) := readInt s3
  let (mi, s5) := readInt s4
  (if validDatetime y mo d h mi then dtSecs y mo d h mi
   else dtSecs 2000 1 1 0 0, s5)

/-! ### Header -/

/-- The `f"{v // 10000}.{(v // 100) % 100}.{v % 100}"` version string;
Python `//` and `%` are floor division and floor remainder. -/
def versionString (v : Int) : String :=
  toString (Int.fdiv v 10000) ++ "." ++ toString (Int.fmod (Int.fdiv v 100) 100)
    ++ "." ++ toString (Int.fmod v 100)

structure Header where
  magicStart : Int
  version : Int
  versionStr : String
  flowUnit : String
  flowUnitCode : Int
  nSubcatchments : Int
  nNodes : Int
  nLinks : Int
  nPollutants : Int
deriving DecidableEq, Repr, Inhabited

/-- Source `SwmmOutputDecoder._parse_header`: seek to 0, check the sentinel, read
version, flow-unit code and the four object counts, resolving the
flow-unit code through the six-entry table with fallback "UNKNOWN". -/
def parseHeader (s : ByteStream) : Except DecErr (Header × ByteStream) :=
  let s0 : ByteStream := { s with pos := 0 }
  let (magic, s1) := readInt s0
  if magic ≠ MAGIC_NUMBER then .error .formatError
  else
    let (ver, s2) := readInt s1
    let (fc, s3) := readInt s2
    let (nSub, s4) := readInt s3
    let (nNod, s5) := readInt s4
    let (nLnk, s6) := readInt s5
    let (nPol, s7) := readInt s6
    match resolveCode FLOW_UNITS fc "UNKNOWN" with
    | .error e => .error e
    | .ok fu =>
      .ok ({ magicStart := magic, version := ver, versionStr := versionString ver,
             flowUnit := fu, flowUnitCode := fc, nSubcatchments := nSub,
             nNodes := nNod, nLinks := nLnk, nPollutants := nPol }, s7)

/-! ### Pollutant units -/

/-- Resolve the pollutant-unit codes in reading order. -/
def readPollutantUnits : Nat → ByteStream → Except DecErr (List String × ByteStream)
  | 0, s => .ok ([], s)
  | n + 1, s =>
    let (c, s1) := readInt s
    match resolveCode CONCENTRATION_UNITS c "UNKNOWN" with
    | .error e => .error e
    | .ok u =>
      match readPollutantUnits n s1 with
      | .error e => .error e
      | .ok (us, s2) => .ok (u :: us, s2)

/-! ### Object properties -/

inductive ObjKind where
  | subcatchment
  | node
  | link
deriving DecidableEq, Repr

/-- A property value: the "type" property is a categorical string, every
other property is a float (carried as its 32-bit pattern). -/
inductive PropValue where
  | typeStr (s : String)
  | floatVal (bits : Nat)
deriving DecidableEq, Repr

/-- Resolve one property code to a name, with synthesized fallback. -/
def resolvePropName (code : Int) : Except DecErr String :=
  resolveCode PROPERTY_LABELS code ("property_" ++ toString code)

/-- Read `n` property codes and resolve each to a name. -/
def readPropCodes : Nat → ByteStream → Except DecErr (List String × ByteStream)
  | 0, s => .ok ([], s)
  | n + 1, s =>
    let (c, s1) := readInt s
    match resolvePropName c with
    | .error e => .error e
    | .ok name =>
      match readPropCodes n s1 with
      | .error e => .error e
      | .ok (names, s2) => .ok (name :: names, s2)

/-- The "type" branch of `_read_object_properties`: nodes and links
resolve the int32 code through their kind table with an `UNKNOWN_<code>`
fallback; for any other object kind the code is read but the branch
assigns nothing, so the result is `none`. -/
def resolveTypeValue (kind : ObjKind) (code : Int) : Except DecErr (Option String) :=
  match kind with
  | .node =>
    match resolveCode NODE_TYPES code ("UNKNOWN_" ++ toString code) with
    | .error e => .error e
    | .ok str => .ok (some str)
  | .link =>
    match resolveCode LINK_TYPES code ("UNKNOWN_" ++ toString code) with
    | .error e => .error e
    | .ok str => .ok (some str)
  | .subcatchment => .ok none

/-- The per-object inner loop of `_read_object_properties`: one value per
resolved property name, assigned into the object's fresh dict (except the
dropped subcatchment "type"). -/
def readOneObject (kind : ObjKind) :
    List String → ByteStream → PyDict String PropValue →
      Except DecErr (PyDict String PropValue × ByteStream)
  | [], s, d => .ok (d, s)
  | name :: names, s, d =>
    if name = "type" then
      let (c, s1) := readInt s
      match resolveTypeValue kind c with
      | .error e => .error e
      | .ok v =>
        let d1 := match v with
          | some str => dictInsert d name (.typeStr str)
          | none => d
        readOneObject kind names s1 d1
    else
      let (bits, s1) := readFloatBits s
      readOneObject kind names s1 (dictInsert d name (.floatVal bits))

/-- The per-label outer loop of `_read_object_properties`, producing the
(label, object dict) assignments in iteration order. -/
def readObjectsPairs (kind : ObjKind) (names : List String) :
    List Label → ByteStream →
      Except DecErr (List (Label × PyDict String PropValue) × ByteStream)
  | [], s => .ok ([], s)
  | lab :: labs, s =>
    match readOneObject kind names s [] with
    | .error e => .error e
    | .ok (d, s1) =>
      match readObjectsPairs kind names labs s1 with
      | .error e => .error e
      | .ok (ps, s2) => .ok ((lab, d) :: ps, s2)

/-- Source `SwmmOutputDecoder._read_object_properties`.  The source assigns
`properties[label] = {...}` as it iterates; collecting the assignments and
folding them into the dict afterwards performs the same insertions in the
same order. -/
def readObjectProperties (kind : ObjKind) (labels : List Label)
    (s : ByteStream) :
    Except DecErr (PyDict Label (PyDict String PropValue) × ByteStream) :=
  let (nProps, s1) := readInt s
  match readPropCodes nProps.toNat s1 with
  | .error e => .error e
  | .ok (names, s2) =>
    match readObjectsPairs kind names labels s2 with
    | .error e => .error e
    | .ok (pairs, s3) => .ok (foldInsert pairs, s3)

/-! ### Metadata and the decode pipeline -/

structure Metadata where
  labelsSubcatchment : List Label
  labelsNode : List Label
  labelsLink : List Label
  labelsPollutant : List Label
  pollutantUnits : PyDict Label String
  propertiesSubcatchment : PyDict Label (PyDict String PropValue)
  propertiesNode : PyDict Label (PyDict String PropValue)
  propertiesLink : PyDict Label (PyDict String PropValue)
  variablesSubcatchment : Int
  variablesNode : Int
  variablesLink : Int
  variablesSystem : Int
  startDate : Int
  reportIntervalSeconds : Int
  nPeriods : Int
deriving DecidableEq, Repr, Inhabited

/-- Source `SwmmOutputDecoder._parse_metadata`: label arrays in fixed kind order,
pollutant units paired index-by-index with the pollutant labels (the
source guards `i < len(labels)`, which the index-aligned zip reproduces),
three property blocks, four variable counts, the start date and report
interval, then the single backwards seek to the 24-byte footer whose
4th integer is the period count.  Seeking before byte 0 of the file
raises `OSError`. -/
def parseMetadata (s : ByteStream) (h : Header) :
    Except DecErr (Metadata × ByteStream) :=
  let (labSub, s1) := readStringArray s h.nSubcatchments
  let (labNod, s2) := readStringArray s1 h.nNodes
  let (labLnk, s3) := readStringArray s2 h.nLinks
  let (labPol, s4) := readStringArray s3 h.nPollutants
  match readPollutantUnits h.nPollutants.toNat s4 with
  | .error e => .error e
  | .ok (units, s5) =>
  let pUnits := foldInsert (labPol.zip units)
  match readObjectProperties .subcatchment labSub s5 with
  | .error e => .error e
  | .ok (propSub, s6) =>
  match readObjectProperties .node labNod s6 with
  | .error e => .error e
  | .ok (propNod, s7) =>
  match readObjectProperties .link labLnk s7 with
  | .error e => .error e
  | .ok (propLnk, s8) =>
  let (vSub, s9) := readInt s8
  let (vNod, s10) := readInt s9
  let (vLnk, s11) := readInt s10
  let (vSys, s12) := readInt s11
  let (startDate, s13) := readDatetime s12
  let (interval, s14) := readInt s13
  if s14.data.length < 24 then .error .seekError
  else
    let sF : ByteStream := { s14 with pos := s14.data.length - 24 }
    let (footer, s15) := readNInts 6 sF
    let nPeriods := footer.getD 3 0
    .ok ({ labelsSubcatchment := labSub, labelsNode := labNod,
            labelsLink := labLnk, labelsPollutant := labPol,
            pollutantUnits := pUnits, propertiesSubcatchment := propSub,
            propertiesNode := propNod, propertiesLink := propLnk,
            variablesSubcatchment := vSub, variablesNode := vNod,
            variablesLink := vLnk, variablesSystem := vSys,
            startDate := startDate, reportIntervalSeconds := interval,
            nPeriods := nPeriods }, s15)

/-- One entry of the time index, `start_date + interval * i`, with
Python's `timedelta` and `datetime` range limits made explicit: either
multiplication or addition out of range raises `OverflowError`. -/
def timeIndexEntry (start interval : Int) (i : Nat) : Except DecErr Int :=
  if interval * i < tdMinSecs ∨ tdMaxSecs < interval * i then
    .error .overflowError
  else if start + interval * i < 0 ∨ dtMaxSecs < start + interval * i then
    .error .overflowError
  else .ok (start + interval * i)

def createTimeIndexAux (start interval : Int) : List Nat → Except DecErr (List Int)
  | [] => .ok []
  | i :: is =>
    match timeIndexEntry start interval i with
    | .error e => .error e
    | .ok t =>
      match createTimeIndexAux start interval is with
      | .error e => .error e
      | .ok ts => .ok (t :: ts)

/-- Source `SwmmOutputDecoder._create_time_index`:
`[start_date + interval * i for i in range(n_periods)]`. -/
def createTimeIndex (start interval : Int) (n : Int) : Except DecErr (List Int) :=
  createTimeIndexAux start interval (List.range n.toNat)

structure DecodeResult where
  header : Header
  metadata : Metadata
  timeIndex : List Int
deriving DecidableEq, Repr, Inhabited

/-- Source `SwmmOutputDecoder.decode_file` on the file contents `data`. -/
def decodeFile (data : List Nat) : Except DecErr DecodeResult :=
  let s : ByteStream := { data := data, pos := 0 }
  match parseHeader s with
  | .error e => .error e
  | .ok (hdr, s1) =>
    match parseMetadata s1 hdr with
    | .error e => .error e
    | .ok (meta, _s2) =>
      match createTimeIndex meta.startDate meta.reportIntervalSeconds meta.nPeriods with
      | .error e => .error e
      | .ok ti => .ok { header := hdr, metadata := meta, timeIndex := ti }

/-- The sentinel as `decode_file` reads it: the first int32 of the file. -/
def sentinelOf (data : List Nat) : Int :=
  (readInt { data := data, pos := 0 }).1

/-! ### High-level facade (`SwmmOutput` in `out.py`) -/

namespace SwmmOutput

/-- Source `SwmmOutput.version`. -/
def version (r : DecodeResult) : String := r.header.versionStr

/-- Source `SwmmOutput.start_date`. -/
def startDate (r : DecodeResult) : Int := r.metadata.startDate

/-- Source `SwmmOutput.end_date`: `start + interval * (n_periods - 1)` when
`n_periods > 0`, else the start date. -/
def endDate (r : DecodeResult) : Int :=
  if 0 < r.metadata.nPeriods then
    r.metadata.startDate + r.metadata.reportIntervalSeconds * (r.metadata.nPeriods - 1)
  else r.metadata.startDate

end SwmmOutput

/-! ### Derived notions used in the statements -/

/-- The property names that produce an entry in an object's dict: for a
subcatchment a declared "type" is read but assigned nowhere. -/
def effectivePropNames (kind : ObjKind) (names : List String) : List String :=
  match kind with
  | .subcatchment => names.filter (fun n => n != "type")
  | .node => names
  | .link => names

/-- What `_read_object_properties` guarantees of a single entry: a "type"
entry is a categorical string (from the kind's table, or the
`UNKNOWN_<code>` fallback), every other entry is a float value. -/
def wellTypedProp (kind : ObjKind) (p : String × PropValue) : Prop :=
  (p.1 = "type" → ∃ str, p.2 = PropValue.typeStr str ∧
    (kind = ObjKind.node →
      str ∈ NODE_TYPES ∨ ∃ c : Int, str = "UNKNOWN_" ++ toString c) ∧
    (kind = ObjKind.link →
      str ∈ LINK_TYPES ∨ ∃ c : Int, str = "UNKNOWN_" ++ toString c)) ∧
  (p.1 ≠ "type" → ∃ bits, p.2 = PropValue.floatVal bits)

/-- Byte `i` positions past the cursor (0 when absent), used to state the
primitive-read claims. -/
def byteAt (s : ByteStream) (i : Nat) : Nat :=
  s.data.getD (s.pos + i) 0

/-- The little-endian bytes of an int32, used to build concrete test
files. -/
def int32Bytes (v : Int) : List Nat :=
  [(v % 4294967296).toNat % 256, (v % 4294967296).toNat / 256 % 256,
   (v % 4294967296).toNat / 65536 % 256, (v % 4294967296).toNat / 16777216 % 256]

/-- A whole file from a list of int32 fields. -/
def bytesOfInts (vs : List Int) : List Nat :=
  (vs.map int32Bytes).flatten

/-- Decidable equality of `Except` results, for evaluating the decoder on
concrete inputs. -/
instance [DecidableEq e] [DecidableEq a] : DecidableEq (Except e a) := fun x y =>
  match x, y with
  | .error u, .error v =>
    if h : u = v then .isTrue (by rw [h]) else
      .isFalse (by intro hc; cases hc; exact h rfl)
  | .ok u, .ok v =>
    if h : u = v then .isTrue (by rw [h]) else
      .isFalse (by intro hc; cases hc; exact h rfl)
  | .error _, .ok _ => .isFalse (by intro hc; cases hc)
  | .ok _, .error _ => .isFalse (by intro hc; cases hc)

/-! ### Concrete test files

Byte-for-byte inputs used to witness or refute the claims; each is a
well-formed byte list a caller could write to disk. -/

/-- A 4-byte file holding exactly the valid sentinel and nothing else. -/
def shortValidFile : List Nat := bytesOfInts [516114522]

/-- A 28-byte file with a valid sentinel whose bytes at offset 16 (the
node count, also footer index 3 when the footer is read from offset 4)
hold -1. -/
def negPeriodsFile : List Nat := bytesOfInts [516114522, 0, 0, 0, -1, 0, 0]

/-- A 28-byte file with a valid sentinel and flow-unit code -7, below the
negative-indexing range of the six-entry flow-unit table. -/
def negFlowCodeFile : List Nat := bytesOfInts [516114522, 0, -7, 0, 0, 0, 0]

/-- A 28-byte file with a valid sentinel and subcatchment count -1. -/
def negCountFile : List Nat := bytesOfInts [516114522, 0, 0, -1, 0, 0, 0]

/-- A complete file: one subcatchment labelled "A" whose property block
declares exactly one property code, 0 ("type"), with one int32 value per
object; empty node/link blocks; valid start date; zero periods. -/
def subcatchTypeFile : List Nat :=
  bytesOfInts [516114522, 0, 0, 1, 0, 0, 0] ++ int32Bytes 1 ++ [65] ++
    bytesOfInts [1, 0, 5] ++ bytesOfInts [0, 0] ++ bytesOfInts [0, 0, 0, 0] ++
    bytesOfInts [2000, 1, 1, 0, 0] ++ bytesOfInts [0] ++
    bytesOfInts [0, 0, 0, 0, 0, 0]

/-- A complete file matching the specification scenario: version 50200,
flow unit code 3, no objects, start 2020-01-01 00:00, report interval
900 seconds, footer `[0,0,0,17,0,0]` so 17 periods. -/
def scenarioFile : List Nat :=
  bytesOfInts [516114522, 50200, 3, 0, 0, 0, 0] ++ bytesOfInts [0, 0, 0] ++
    bytesOfInts [0, 0, 0, 0] ++ bytesOfInts [2020, 1, 1, 0, 0] ++
    bytesOfInts [900] ++ bytesOfInts [0, 0, 0, 17, 0, 0]

/-- A complete file with two nodes both labelled "N" (byte 78): node
property block declares code 0 ("type") and carries type codes 0 then 1;
footer gives 3 periods. -/
def dupLabelFile : List Nat :=
  bytesOfInts [516114522, 0, 0, 0, 2, 0, 0] ++
    int32Bytes 1 ++ [78] ++ int32Bytes 1 ++ [78] ++
    bytesOfInts [0] ++ bytesOfInts [1, 0, 0, 1] ++ bytesOfInts [0] ++
    bytesOfInts [0, 0, 0, 0] ++ bytesOfInts [2020, 1, 1, 0, 0] ++
    bytesOfInts [900] ++ bytesOfInts [0, 0, 0, 3, 0, 0]

/-- The decoded structure of `negPeriodsFile`. -/
def negPeriodsResult : DecodeResult :=
  (decodeFile negPeriodsFile).toOption.getD default

/-- The decoded structure of `negCountFile`. -/
def negCountResult : DecodeResult :=
  (decodeFile negCountFile).toOption.getD default

/-- The decoded structure of `subcatchTypeFile`. -/
def subcatchTypeResult : DecodeResult :=
  (decodeFile subcatchTypeFile).toOption.getD default

/-- The decoded structure of `scenarioFile`. -/
def scenarioResult : DecodeResult :=
  (decodeFile scenarioFile).toOption.getD default

/-- The decoded structure of `dupLabelFile`. -/
def dupLabelResult : DecodeResult :=
  (decodeFile dupLabelFile).toOption.getD default

/-- A complete file with two pollutants whose labels are the distinct
invalid-UTF-8 bytes 0x80 and 0x81: both decode (with replacement) to the
same one-character string U+FFFD, so Python keys them identically.  Unit
codes 0 (MG) then 1 (UG); footer gives 1 period. -/
def fffdLabelFile : List Nat :=
  bytesOfInts [516114522, 0, 0, 0, 0, 0, 2] ++
    int32Bytes 1 ++ [128] ++ int32Bytes 1 ++ [129] ++
    bytesOfInts [0, 1] ++ bytesOfInts [0, 0, 0] ++
    bytesOfInts [0, 0, 0, 0] ++ bytesOfInts [2020, 1, 1, 0, 0] ++
    bytesOfInts [900] ++ bytesOfInts [0, 0, 0, 1, 0, 0]

/-- The decoded structure of `fffdLabelFile`. -/
def fffdLabelResult : DecodeResult :=
  (decodeFile fffdLabelFile).toOption.getD default

/-! ## Theory of the Python dict model -/

section DictLemmas

variable {κ α : Type} [DecidableEq κ]

theorem dictFind_isSome_iff_mem_keys (d : PyDict κ α) (k : κ) :
    (dictFind d k).isSome ↔ k ∈ dictKeys d := by
  induction d with
  | nil => simp [dictFind, dictKeys]
  | cons p d ih =>
    by_cases h : p.1 = k <;> simp [dictFind, dictKeys, h, ih]
    exact fun heq => absurd heq.symm h

theorem keys_dictInsert (d : PyDict κ α) (k : κ) (v : α) :
    dictKeys (dictInsert d k v) =
      if k ∈ dictKeys d then dictKeys d else dictKeys d ++ [k] := by
  unfold dictInsert
  by_cases h : k ∈ dictKeys d
  · rw [if_pos ((dictFind_isSome_iff_mem_keys d k).mpr h), if_pos h]
    unfold dictKeys
    rw [List.map_map]
    apply List.map_congr_left
    intro p _
    by_cases hp : p.1 = k <;> simp [hp]
  · rw [if_neg (by
      intro hs
      exact h ((dictFind_isSome_iff_mem_keys d k).mp hs)), if_neg h]
    simp [dictKeys]

theorem dictFind_map_replace (d : PyDict κ α) (k k2 : κ) (v : α) (h : k2 ≠ k) :
    dictFind (d.map (fun p => if p.1 = k then (k, v) else p)) k2 = dictFind d k2 := by
  induction d with
  | nil => simp [dictFind]
  | cons p d ih =>
    by_cases hp : p.1 = k
    · simp [dictFind, hp, Ne.symm h, ih]
    · simp only [List.map_cons, hp, if_false]
      by_cases hp2 : p.1 = k2 <;> simp [dictFind, hp2, ih]

theorem dictFind_append_single (d : PyDict κ α) (k k2 : κ) (v : α) (h : k2 ≠ k) :
    dictFind (d ++ [(k, v)]) k2 = dictFind d k2 := by
  induction d with
  | nil => simp [dictFind, Ne.symm h]
  | cons p d ih =>
    by_cases hp : p.1 = k2 <;> simp [dictFind, hp, ih]

theorem dictFind_dictInsert_self (d : PyDict κ α) (k : κ) (v : α) :
    dictFind (dictInsert d k v) k = some v := by
  unfold dictInsert
  by_cases h : (dictFind d k).isSome
  · rw [if_pos h]
    induction d with
    | nil => simp [dictFind] at h
    | cons p d ih =>
      by_cases hp : p.1 = k
      · simp [dictFind, hp]
      · simp only [dictFind, hp, if_neg, if_false] at h
        simp [dictFind, hp, ih h]
  · rw [if_neg h]
    induction d with
    | nil => simp [dictFind]
    | cons p d ih =>
      by_cases hp : p.1 = k
      · simp [dictFind, hp] at h
      · simp only [dictFind, hp, if_neg, if_false] at h
        simp [dictFind, hp, ih h]

theorem dictFind_dictInsert_ne (d : PyDict κ α) (k k2 : κ) (v : α) (h : k2 ≠ k) :
    dictFind (dictInsert d k v) k2 = dictFind d k2 := by
  unfold dictInsert
  by_cases hs : (dictFind d k).isSome
  · rw [if_pos hs]
    exact dictFind_map_replace d k k2 v h
  · rw [if_neg hs]
    exact dictFind_append_single d k k2 v h

theorem mem_dictInsert (d : PyDict κ α) (k : κ) (v : α) {p : κ × α}
    (h : p ∈ dictInsert d k v) : p ∈ d ∨ p = (k, v) := by
  unfold dictInsert at h
  by_cases hs : (dictFind d k).isSome
  · rw [if_pos hs] at h
    obtain ⟨q, hq, hqe⟩ := List.mem_map.mp h
    by_cases hqk : q.1 = k
    · right
      simp only [hqk, if_pos] at hqe
      exact hqe.symm
    · left
      simp only [hqk, if_neg, if_false] at hqe
      exact hqe ▸ hq
  · rw [if_neg hs] at h
    rcases List.mem_append.mp h with h1 | h1
    · exact Or.inl h1
    · right
      simpa using h1

theorem insertList_nil (d : PyDict κ α) : insertList d [] = d := rfl

theorem insertList_cons (d : PyDict κ α) (p : κ × α) (ps : List (κ × α)) :
    insertList d (p :: ps) = insertList (dictInsert d p.1 p.2) ps := rfl

theorem firstDedupFrom_cons (acc : List κ) (a : κ) (l : List κ) :
    firstDedupFrom acc (a :: l) =
      firstDedupFrom (if a ∈ acc then acc else acc ++ [a]) l := rfl

theorem keys_insertList (ps : List (κ × α)) (d : PyDict κ α) :
    dictKeys (insertList d ps) = firstDedupFrom (dictKeys d) (ps.map Prod.fst) := by
  induction ps generalizing d with
  | nil => rfl
  | cons p ps ih =>
    rw [insertList_cons, List.map_cons, firstDedupFrom_cons, ih,
      keys_dictInsert]

theorem dictFind_insertList (ps : List (κ × α)) (d : PyDict κ α) (k : κ) :
    dictFind (insertList d ps) k =
      (lastVal ps k).orElse (fun _ => dictFind d k) := by
  induction ps generalizing d with
  | nil => simp [insertList_nil, lastVal, Option.orElse]
  | cons p ps ih =>
    rw [insertList_cons, ih]
    show (lastVal ps k).orElse _ =
      ((lastVal ps k).orElse _).orElse _
    cases hv : lastVal ps k with
    | some v => simp [Option.orElse]
    | none =>
      by_cases hp : p.1 = k
      · subst hp
        simp [Option.orElse, dictFind_dictInsert_self]
      · simp [Option.orElse, hp, dictFind_dictInsert_ne d p.1 k p.2 (Ne.symm hp)]

theorem mem_insertList (ps : List (κ × α)) (d : PyDict κ α) {p : κ × α}
    (h : p ∈ insertList d ps) : p ∈ d ∨ p ∈ ps := by
  induction ps generalizing d with
  | nil => exact Or.inl h
  | cons q ps ih =>
    rw [insertList_cons] at h
    rcases ih (dictInsert d q.1 q.2) h with h1 | h1
    · rcases mem_dictInsert d q.1 q.2 h1 with h2 | h2
      · exact Or.inl h2
      · exact Or.inr (by simp [h2])
    · exact Or.inr (List.mem_cons_of_mem q h1)

theorem dictFind_foldInsert (ps : List (κ × α)) (k : κ) :
    dictFind (foldInsert ps) k = lastVal ps k := by
  rw [foldInsert, dictFind_insertList]
  cases lastVal ps k <;> simp [dictFind, Option.orElse]

theorem keys_foldInsert (ps : List (κ × α)) :
    dictKeys (foldInsert ps) = firstDedup (ps.map Prod.fst) := by
  rw [foldInsert, keys_insertList]
  rfl

theorem mem_foldInsert (ps : List (κ × α)) {p : κ × α}
    (h : p ∈ foldInsert ps) : p ∈ ps := by
  rcases mem_insertList ps [] h with h1 | h1
  · cases h1
  · exact h1

theorem lastVal_isSome_iff (ps : List (κ × α)) (k : κ) :
    (lastVal ps k).isSome ↔ k ∈ ps.map Prod.fst := by
  induction ps with
  | nil => simp [lastVal]
  | cons p ps ih =>
    simp only [lastVal, List.map_cons, List.mem_cons]
    cases hv : lastVal ps k with
    | some v =>
      have hk : k ∈ ps.map Prod.fst := ih.mp (by simp [hv])
      simp [Option.orElse, hk]
    | none =>
      have hk : k ∉ ps.map Prod.fst := by
        intro hm
        have := ih.mpr hm
        simp [hv] at this
      by_cases hp : p.1 = k
      · simp [Option.orElse, hp]
      · simp [Option.orElse, hp, hk, Ne.symm hp]

theorem lastVal_mem (ps : List (κ × α)) (k : κ) {v : α}
    (h : lastVal ps k = some v) : (k, v) ∈ ps := by
  induction ps with
  | nil => simp [lastVal] at h
  | cons p ps ih =>
    cases hv : lastVal ps k with
    | some w =>
      simp only [lastVal, hv, Option.orElse, Option.some.injEq] at h
      subst h
      exact List.mem_cons_of_mem p (ih hv)
    | none =>
      simp only [lastVal, hv, Option.orElse] at h
      by_cases hp : p.1 = k
      · rw [if_pos hp] at h
        have hv2 : v = p.2 := (Option.some.inj h).symm
        subst hv2
        rw [← hp]
        simp
      · simp [hp] at h

theorem lastVal_last_occurrence (ps : List (κ × α)) (i : Nat) (h : i < ps.length)
    (hlast : ∀ j (hj : j < ps.length), i < j →
      (ps.get ⟨j, hj⟩).1 ≠ (ps.get ⟨i, h⟩).1) :
    lastVal ps ((ps.get ⟨i, h⟩).1) = some ((ps.get ⟨i, h⟩).2) := by
  induction ps generalizing i with
  | nil => cases h
  | cons p ps ih =>
    cases i with
    | zero =>
      show lastVal (p :: ps) p.1 = some p.2
      have hnone : lastVal ps p.1 = none := by
        cases hv : lastVal ps p.1 with
        | none => rfl
        | some v =>
          have hs : p.1 ∈ ps.map Prod.fst :=
            (lastVal_isSome_iff ps p.1).mp (by simp [hv])
          obtain ⟨q, hq, hqe⟩ := List.mem_map.mp hs
          obtain ⟨j, hje⟩ := List.mem_iff_get.mp hq
          have hne : (ps.get j).1 ≠ p.1 :=
            hlast (j.1 + 1) (Nat.succ_lt_succ j.isLt) (Nat.succ_pos j.1)
          exact absurd (by rw [hje]; exact hqe) hne
      rw [lastVal, hnone]
      simp [Option.orElse]
    | succ i2 =>
      have hi2 : i2 < ps.length := Nat.lt_of_succ_lt_succ h
      have hrec := ih i2 hi2 (fun j hj hij =>
        hlast (j + 1) (Nat.succ_lt_succ hj) (Nat.succ_lt_succ hij))
      show lastVal (p :: ps) ((ps.get ⟨i2, hi2⟩).1) = some ((ps.get ⟨i2, hi2⟩).2)
      rw [lastVal, hrec]
      simp [Option.orElse]

theorem lastVal_of_nodup (ps : List (κ × α)) (hnd : (ps.map Prod.fst).Nodup)
    (i : Nat) (h : i < ps.length) :
    lastVal ps ((ps.get ⟨i, h⟩).1) = some ((ps.get ⟨i, h⟩).2) := by
  apply lastVal_last_occurrence
  intro j hj hij heq
  have hj2 : j < (ps.map Prod.fst).length := by simpa using hj
  have hi2 : i < (ps.map Prod.fst).length := by simpa using h
  have hji : (⟨j, hj2⟩ : Fin (ps.map Prod.fst).length) = ⟨i, hi2⟩ :=
    (List.Nodup.get_inj_iff hnd).mp (by simp only [List.get_map]; exact heq)
  have : j = i := congrArg Fin.val hji
  omega

theorem mem_firstDedupFrom (l : List κ) (acc : List κ) (a : κ) :
    a ∈ firstDedupFrom acc l ↔ a ∈ acc ∨ a ∈ l := by
  induction l generalizing acc with
  | nil => simp [firstDedupFrom]
  | cons b l ih =>
    rw [firstDedupFrom_cons, ih]
    by_cases hb : b ∈ acc
    · rw [if_pos hb]
      constructor
      · intro hc
        rcases hc with hc | hc
        · exact Or.inl hc
        · exact Or.inr (List.mem_cons_of_mem b hc)
      · intro hc
        rcases hc with hc | hc
        · exact Or.inl hc
        · rcases List.mem_cons.mp hc with hc2 | hc2
          · exact Or.inl (hc2 ▸ hb)
          · exact Or.inr hc2
    · rw [if_neg hb]
      simp only [List.mem_append, List.mem_singleton, List.mem_cons]
      tauto

theorem firstDedupFrom_of_nodup (l : List κ) (acc : List κ) (hnd : l.Nodup)
    (hdisj : ∀ a ∈ l, a ∉ acc) : firstDedupFrom acc l = acc ++ l := by
  induction l generalizing acc with
  | nil => simp [firstDedupFrom]
  | cons b l ih =>
    rw [firstDedupFrom_cons,
      if_neg (hdisj b (List.mem_cons_self b l)),
      ih (acc ++ [b]) (List.Nodup.of_cons hnd)
        (fun a ha => by
          intro hmem
          rcases List.mem_append.mp hmem with hm | hm
          · exact hdisj a (List.mem_cons_of_mem b ha) hm
          · rw [List.mem_singleton.mp hm] at ha
            exact (List.nodup_cons.mp hnd).1 ha)]
    simp

theorem length_firstDedupFrom_le (l : List κ) (acc : List κ) :
    (firstDedupFrom acc l).length ≤ acc.length + l.length := by
  induction l generalizing acc with
  | nil => simp [firstDedupFrom]
  | cons b l ih =>
    rw [firstDedupFrom_cons]
    by_cases hb : b ∈ acc
    · rw [if_pos hb]
      calc (firstDedupFrom acc l).length ≤ acc.length + l.length := ih acc
        _ ≤ acc.length + (b :: l).length := by simp only [List.length_cons]; omega
    · rw [if_neg hb]
      calc (firstDedupFrom (acc ++ [b]) l).length
          ≤ (acc ++ [b]).length + l.length := ih (acc ++ [b])
        _ = acc.length + (b :: l).length := by simp only [List.length_cons, List.length_append, List.length_nil]; omega

theorem length_firstDedupFrom_lt_of_mem (l : List κ) (acc : List κ) (a : κ)
    (ha : a ∈ l) (hacc : a ∈ acc) :
    (firstDedupFrom acc l).length < acc.length + l.length := by
  induction l generalizing acc with
  | nil => cases ha
  | cons b l ih =>
    rw [firstDedupFrom_cons]
    by_cases hb : b ∈ acc
    · rw [if_pos hb]
      calc (firstDedupFrom acc l).length ≤ acc.length + l.length :=
          length_firstDedupFrom_le l acc
        _ < acc.length + (b :: l).length := by simp only [List.length_cons]; omega
    · rw [if_neg hb]
      rcases List.mem_cons.mp ha with rfl | ha2
      · exact absurd hacc hb
      · calc (firstDedupFrom (acc ++ [b]) l).length
            < (acc ++ [b]).length + l.length :=
            ih (acc ++ [b]) ha2 (List.mem_append_left [b] hacc)
          _ = acc.length + (b :: l).length := by simp only [List.length_cons, List.length_append, List.length_nil]; omega

theorem length_firstDedupFrom_lt_of_not_nodup (l : List κ) (acc : List κ)
    (h : ¬ l.Nodup) :
    (firstDedupFrom acc l).length < acc.length + l.length := by
  induction l generalizing acc with
  | nil => exact absurd List.nodup_nil h
  | cons b l ih =>
    rw [firstDedupFrom_cons]
    by_cases hb : b ∈ acc
    · rw [if_pos hb]
      calc (firstDedupFrom acc l).length ≤ acc.length + l.length :=
          length_firstDedupFrom_le l acc
        _ < acc.length + (b :: l).length := by simp only [List.length_cons]; omega
    · rw [if_neg hb]
      by_cases hbl : b ∈ l
      · calc (firstDedupFrom (acc ++ [b]) l).length
            < (acc ++ [b]).length + l.length :=
            length_firstDedupFrom_lt_of_mem l (acc ++ [b]) b hbl
              (List.mem_append_right acc (List.mem_singleton_self b))
          _ = acc.length + (b :: l).length := by simp only [List.length_cons, List.length_append, List.length_nil]; omega
      · have hnl : ¬ l.Nodup := fun hnd => h (List.nodup_cons.mpr ⟨hbl, hnd⟩)
        calc (firstDedupFrom (acc ++ [b]) l).length
            < (acc ++ [b]).length + l.length := ih (acc ++ [b]) hnl
          _ = acc.length + (b :: l).length := by simp only [List.length_cons, List.length_append, List.length_nil]; omega

theorem firstDedup_of_nodup (l : List κ) (hnd : l.Nodup) : firstDedup l = l := by
  rw [firstDedup, firstDedupFrom_of_nodup l [] hnd (by simp)]
  simp

theorem mem_firstDedup (l : List κ) (a : κ) : a ∈ firstDedup l ↔ a ∈ l := by
  rw [firstDedup, mem_firstDedupFrom]
  simp

theorem length_firstDedup_lt_of_not_nodup (l : List κ) (h : ¬ l.Nodup) :
    (firstDedup l).length < l.length := by
  have := length_firstDedupFrom_lt_of_not_nodup l [] h
  simpa [firstDedup] using this

end DictLemmas

/-! ## Decoder-level lemmas -/

theorem length_readStringArrayAux (n : Nat) (s : ByteStream) :
    (readStringArrayAux n s).1.length = n := by
  induction n generalizing s with
  | zero => rfl
  | succ n ih =>
    simp only [readStringArrayAux]
    simp [ih]

theorem length_readStringArray (s : ByteStream) (n : Int) :
    (readStringArray s n).1.length = n.toNat :=
  length_readStringArrayAux n.toNat s

theorem resolveCode_ok_cases (table : List String) (code : Int)
    (fallback : String) {str : String}
    (h : resolveCode table code fallback = .ok str) :
    str ∈ table ∨ str = fallback := by
  unfold resolveCode at h
  split at h
  · unfold pyGetStr at h
    split at h
    · cases h
      exact Or.inl (List.get_mem ..)
    · cases h
  · cases h
    exact Or.inr rfl

theorem resolveCode_error (table : List String) (code : Int)
    (fallback : String) {e : DecErr}
    (h : resolveCode table code fallback = .error e) : e = .indexError := by
  unfold resolveCode pyGetStr at h
  split at h
  · split at h
    · cases h
    · cases h
      rfl
  · cases h

theorem readPollutantUnits_ok_length :
    ∀ (n : Nat) (s : ByteStream) (us : List String) (s2 : ByteStream),
      readPollutantUnits n s = .ok (us, s2) → us.length = n := by
  intro n
  induction n with
  | zero =>
    intro s us s2 h
    cases h
    rfl
  | succ n ih =>
    intro s us s2 h
    simp only [readPollutantUnits] at h
    split at h
    · cases h
    · split at h
      · cases h
      · cases h
        simp only [List.length_cons]
        rw [ih _ _ _ (by assumption)]

theorem readPollutantUnits_error :
    ∀ (n : Nat) (s : ByteStream) (e : DecErr),
      readPollutantUnits n s = .error e → e = .indexError := by
  intro n
  induction n with
  | zero =>
    intro s e h
    cases h
  | succ n ih =>
    intro s e h
    simp only [readPollutantUnits] at h
    split at h
    · cases h
      exact resolveCode_error _ _ _ (by assumption)
    · split at h
      · cases h
        exact ih _ _ (by assumption)
      · cases h

theorem readPropCodes_error :
    ∀ (n : Nat) (s : ByteStream) (e : DecErr),
      readPropCodes n s = .error e → e = .indexError := by
  intro n
  induction n with
  | zero =>
    intro s e h
    cases h
  | succ n ih =>
    intro s e h
    simp only [readPropCodes] at h
    split at h
    · cases h
      exact resolveCode_error _ _ _ (by assumption)
    · split at h
      · cases h
        exact ih _ _ (by assumption)
      · cases h

theorem resolveTypeValue_error (kind : ObjKind) (code : Int) {e : DecErr}
    (h : resolveTypeValue kind code = .error e) : e = .indexError := by
  cases kind with
  | node =>
    simp only [resolveTypeValue] at h
    split at h
    · cases h
      exact resolveCode_error _ _ _ (by assumption)
    · cases h
  | link =>
    simp only [resolveTypeValue] at h
    split at h
    · cases h
      exact resolveCode_error _ _ _ (by assumption)
    · cases h
  | subcatchment => cases h

theorem readOneObject_error (kind : ObjKind) :
    ∀ (names : List String) (s : ByteStream) (d : PyDict String PropValue)
      (e : DecErr), readOneObject kind names s d = .error e →
        e = .indexError := by
  intro names
  induction names with
  | nil =>
    intro s d e h
    cases h
  | cons name names ih =>
    intro s d e h
    simp only [readOneObject] at h
    split at h
    · split at h
      · cases h
        exact resolveTypeValue_error _ _ (by assumption)
      · exact ih _ _ _ h
    · exact ih _ _ _ h

theorem readObjectsPairs_error (kind : ObjKind) (names : List String) :
    ∀ (labels : List Label) (s : ByteStream) (e : DecErr),
      readObjectsPairs kind names labels s = .error e → e = .indexError := by
  intro labels
  induction labels with
  | nil =>
    intro s e h
    cases h
  | cons lab labs ih =>
    intro s e h
    simp only [readObjectsPairs] at h
    split at h
    · cases h
      exact readOneObject_error _ _ _ _ _ (by assumption)
    · split at h
      · cases h
        exact ih _ _ (by assumption)
      · cases h

theorem readObjectsPairs_ok_map_fst (kind : ObjKind) (names : List String) :
    ∀ (labels : List Label) (s : ByteStream)
      (pairs : List (Label × PyDict String PropValue)) (s2 : ByteStream),
      readObjectsPairs kind names labels s = .ok (pairs, s2) →
        pairs.map Prod.fst = labels := by
  intro labels
  induction labels with
  | nil =>
    intro s pairs s2 h
    cases h
    rfl
  | cons lab labs ih =>
    intro s pairs s2 h
    simp only [readObjectsPairs] at h
    split at h
    · cases h
    · split at h
      · cases h
      · cases h
        simp only [List.map_cons]
        rw [ih _ _ _ (by assumption)]

theorem readObjectProperties_error (kind : ObjKind) (labels : List Label)
    (s : ByteStream) {e : DecErr}
    (h : readObjectProperties kind labels s = .error e) : e = .indexError := by
  simp only [readObjectProperties] at h
  split at h
  · cases h
    exact readPropCodes_error _ _ _ (by assumption)
  · split at h
    · cases h
      exact readObjectsPairs_error _ _ _ _ _ (by assumption)
    · cases h

theorem timeIndexEntry_error (start interval : Int) (i : Nat) {e : DecErr}
    (h : timeIndexEntry start interval i = .error e) : e = .overflowError := by
  unfold timeIndexEntry at h
  split at h
  · cases h
    rfl
  · split at h
    · cases h
      rfl
    · cases h

theorem createTimeIndexAux_error (start interval : Int) :
    ∀ (l : List Nat) (e : DecErr),
      createTimeIndexAux start interval l = .error e → e = .overflowError := by
  intro l
  induction l with
  | nil =>
    intro e h
    cases h
  | cons i is ih =>
    intro e h
    simp only [createTimeIndexAux] at h
    split at h
    · cases h
      exact timeIndexEntry_error _ _ _ (by assumption)
    · split at h
      · cases h
        exact ih _ (by assumption)
      · cases h

theorem createTimeIndexAux_ok (start interval : Int) :
    ∀ (l : List Nat) (ts : List Int),
      createTimeIndexAux start interval l = .ok ts →
        ts = l.map (fun i : Nat => start + interval * (i : Int)) := by
  intro l
  induction l with
  | nil =>
    intro ts h
    cases h
    rfl
  | cons i is ih =>
    intro ts h
    simp only [createTimeIndexAux] at h
    split at h
    · cases h
    · rename_i t ht
      split at h
      · cases h
      · rename_i ts2 hts
        cases h
        simp only [List.map_cons]
        rw [ih ts2 hts]
        unfold timeIndexEntry at ht
        split at ht
        · cases ht
        · split at ht
          · cases ht
          · cases ht
            rfl

theorem parseMetadata_error (s : ByteStream) (h : Header) {e : DecErr}
    (he : parseMetadata s h = .error e) :
    e = .indexError ∨ e = .seekError := by
  unfold parseMetadata at he
  split at he
  split at he
  split at he
  split at he
  split at he
  · cases he
    exact Or.inl (readPollutantUnits_error _ _ _ (by assumption))
  · split at he
    · cases he
      exact Or.inl (readObjectProperties_error _ _ _ (by assumption))
    · split at he
      · cases he
        exact Or.inl (readObjectProperties_error _ _ _ (by assumption))
      · split at he
        · cases he
          exact Or.inl (readObjectProperties_error _ _ _ (by assumption))
        · split at he
          split at he
          split at he
          split at he
          split at he
          split at he
          split at he
          · cases he
            exact Or.inr rfl
          · dsimp only at he
            cases he

theorem parseHeader_error_magic (s : ByteStream) {e : DecErr}
    (he : parseHeader s = .error e) :
    (e = .formatError ∧ (readInt { s with pos := 0 }).1 ≠ MAGIC_NUMBER) ∨
      (e = .indexError ∧ (readInt { s with pos := 0 }).1 = MAGIC_NUMBER) := by
  unfold parseHeader at he
  dsimp only at he
  split at he
  · cases he
    exact Or.inl ⟨rfl, by assumption⟩
  · split at he
    · cases he
      exact Or.inr ⟨resolveCode_error _ _ _ (by assumption), by
        simp only [Decidable.not_not] at *
        assumption⟩
    · cases he

theorem parseHeader_ok_elim (s : ByteStream) (hdr : Header) (s1 : ByteStream)
    (he : parseHeader s = .ok (hdr, s1)) :
    hdr.magicStart = MAGIC_NUMBER ∧
    hdr.versionStr = versionString hdr.version ∧
    resolveCode FLOW_UNITS hdr.flowUnitCode "UNKNOWN" = .ok hdr.flowUnit := by
  unfold parseHeader at he
  dsimp only at he
  split at he
  · cases he
  · split at he
    · cases he
    · rename_i hm x fu hfu
      cases he
      refine ⟨?_, rfl, hfu⟩
      simp only [Decidable.not_not] at hm
      exact hm

theorem parseMetadata_ok_elim (s : ByteStream) (h : Header) (meta : Metadata)
    (sEnd : ByteStream) (he : parseMetadata s h = .ok (meta, sEnd)) :
    meta.labelsSubcatchment.length = h.nSubcatchments.toNat ∧
    meta.labelsNode.length = h.nNodes.toNat ∧
    meta.labelsLink.length = h.nLinks.toNat ∧
    meta.labelsPollutant.length = h.nPollutants.toNat ∧
    (∃ units : List String, units.length = h.nPollutants.toNat ∧
      meta.pollutantUnits = foldInsert (meta.labelsPollutant.zip units)) ∧
    (∃ sa sb, readObjectProperties .subcatchment meta.labelsSubcatchment sa =
      .ok (meta.propertiesSubcatchment, sb)) ∧
    (∃ sa sb, readObjectProperties .node meta.labelsNode sa =
      .ok (meta.propertiesNode, sb)) ∧
    (∃ sa sb, readObjectProperties .link meta.labelsLink sa =
      .ok (meta.propertiesLink, sb)) := by
  unfold parseMetadata at he
  split at he
  rename_i p1 labSub sA hSub
  split at he
  rename_i p2 labNod sB hNod
  split at he
  rename_i p3 labLnk sC hLnk
  split at he
  rename_i p4 labPol sD hPol
  split at he
  · cases he
  · rename_i p5 units sE hUnits
    split at he
    · cases he
    · rename_i p6 propSub sF hPropSub
      split at he
      · cases he
      · rename_i p7 propNod sG hPropNod
        split at he
        · cases he
        · rename_i p8 propLnk sH hPropLnk
          split at he
          split at he
          split at he
          split at he
          split at he
          split at he
          split at he
          · cases he
          · dsimp only at he
            cases he
            have l1 := length_readStringArray s h.nSubcatchments
            rw [hSub] at l1
            have l2 := length_readStringArray sA h.nNodes
            rw [hNod] at l2
            have l3 := length_readStringArray sB h.nLinks
            rw [hLnk] at l3
            have l4 := length_readStringArray sC h.nPollutants
            rw [hPol] at l4
            exact ⟨l1, l2, l3, l4,
              ⟨units, readPollutantUnits_ok_length _ _ _ _ hUnits, rfl⟩,
              ⟨sE, sF, hPropSub⟩, ⟨sF, sG, hPropNod⟩, ⟨sG, sH, hPropLnk⟩⟩

theorem createTimeIndex_ok (start interval n : Int) (ts : List Int)
    (h : createTimeIndex start interval n = .ok ts) :
    ts.length = n.toNat ∧
      ∀ i (hi : i < ts.length), ts.get ⟨i, hi⟩ = start + interval * i := by
  unfold createTimeIndex at h
  have hts := createTimeIndexAux_ok start interval _ _ h
  subst hts
  refine ⟨by simp, ?_⟩
  intro i hi
  rw [List.get_map]
  congr 1
  simp [List.get_range]

theorem decodeFile_ok_elim (data : List Nat) (r : DecodeResult)
    (hd : decodeFile data = .ok r) :
    ∃ s1 s2, parseHeader { data := data, pos := 0 } = .ok (r.header, s1) ∧
      parseMetadata s1 r.header = .ok (r.metadata, s2) ∧
      createTimeIndex r.metadata.startDate r.metadata.reportIntervalSeconds
        r.metadata.nPeriods = .ok r.timeIndex := by
  unfold decodeFile at hd
  dsimp only at hd
  split at hd
  · cases hd
  · rename_i p hdr s1 hh
    split at hd
    · cases hd
    · rename_i q meta s2 hm
      split at hd
      · cases hd
      · rename_i ti hti
        cases hd
        exact ⟨s1, s2, hh, hm, hti⟩

theorem resolveTypeValue_ok_cases (kind : ObjKind) (code : Int)
    {v : Option String} (h : resolveTypeValue kind code = .ok v) :
    (kind = .subcatchment → v = none) ∧
    (kind = .node → ∃ str, v = some str ∧
      (str ∈ NODE_TYPES ∨ str = "UNKNOWN_" ++ toString code)) ∧
    (kind = .link → ∃ str, v = some str ∧
      (str ∈ LINK_TYPES ∨ str = "UNKNOWN_" ++ toString code)) := by
  cases kind with
  | subcatchment =>
    cases h
    exact ⟨fun _ => rfl, fun hk => ObjKind.noConfusion hk,
      fun hk => ObjKind.noConfusion hk⟩
  | node =>
    simp only [resolveTypeValue] at h
    split at h
    · cases h
    · cases h
      refine ⟨fun hk => ObjKind.noConfusion hk, fun _ => ⟨_, rfl, ?_⟩,
        fun hk => ObjKind.noConfusion hk⟩
      exact resolveCode_ok_cases _ _ _ (by assumption)
  | link =>
    simp only [resolveTypeValue] at h
    split at h
    · cases h
    · cases h
      refine ⟨fun hk => ObjKind.noConfusion hk,
        fun hk => ObjKind.noConfusion hk, fun _ => ⟨_, rfl, ?_⟩⟩
      exact resolveCode_ok_cases _ _ _ (by assumption)

theorem readOneObject_spec (kind : ObjKind) :
    ∀ (names : List String) (s : ByteStream) (d : PyDict String PropValue)
      (d2 : PyDict String PropValue) (s2 : ByteStream),
      readOneObject kind names s d = .ok (d2, s2) →
        dictKeys d2 = firstDedupFrom (dictKeys d) (effectivePropNames kind names) ∧
        (∀ p ∈ d2, p ∈ d ∨ wellTypedProp kind p) := by
  intro names
  induction names with
  | nil =>
    intro s d d2 s2 h
    cases h
    constructor
    · cases kind <;> rfl
    · exact fun p hp => Or.inl hp
  | cons name names ih =>
    intro s d d2 s2 h
    simp only [readOneObject] at h
    split at h
    · rename_i hty
      split at h
      · cases h
      · rename_i v hv
        obtain ⟨hsub, hnod, hlnk⟩ := resolveTypeValue_ok_cases kind _ hv
        cases kind with
        | subcatchment =>
          rw [hsub rfl] at h
          obtain ⟨hk, hm⟩ := ih _ _ _ _ h
          constructor
          · rw [hk]
            congr 1
            simp [effectivePropNames, hty]
          · exact hm
        | node =>
          obtain ⟨str, rfl, hstr⟩ := hnod rfl
          obtain ⟨hk, hm⟩ := ih _ _ _ _ h
          constructor
          · rw [hk, keys_dictInsert,
              show effectivePropNames ObjKind.node (name :: names) =
                name :: effectivePropNames ObjKind.node names from rfl,
              firstDedupFrom_cons]
          · intro p hp
            rcases hm p hp with hp2 | hp2
            · rcases mem_dictInsert d name _ hp2 with hp3 | hp3
              · exact Or.inl hp3
              · refine Or.inr ⟨fun _ => ⟨str, by rw [hp3], fun _ => ?_,
                  fun hk2 => ObjKind.noConfusion hk2⟩, fun hne => ?_⟩
                · rcases hstr with hs1 | hs1
                  · exact Or.inl hs1
                  · exact Or.inr ⟨_, hs1⟩
                · rw [hp3] at hne
                  exact absurd hty hne
            · exact Or.inr hp2
        | link =>
          obtain ⟨str, rfl, hstr⟩ := hlnk rfl
          obtain ⟨hk, hm⟩ := ih _ _ _ _ h
          constructor
          · rw [hk, keys_dictInsert,
              show effectivePropNames ObjKind.link (name :: names) =
                name :: effectivePropNames ObjKind.link names from rfl,
              firstDedupFrom_cons]
          · intro p hp
            rcases hm p hp with hp2 | hp2
            · rcases mem_dictInsert d name _ hp2 with hp3 | hp3
              · exact Or.inl hp3
              · refine Or.inr ⟨fun _ => ⟨str, by rw [hp3],
                  fun hk2 => ObjKind.noConfusion hk2, fun _ => ?_⟩, fun hne => ?_⟩
                · rcases hstr with hs1 | hs1
                  · exact Or.inl hs1
                  · exact Or.inr ⟨_, hs1⟩
                · rw [hp3] at hne
                  exact absurd hty hne
            · exact Or.inr hp2
    · rename_i hty
      obtain ⟨hk, hm⟩ := ih _ _ _ _ h
      have heff : effectivePropNames kind (name :: names) =
          name :: effectivePropNames kind names := by
        cases kind with
        | subcatchment => simp [effectivePropNames, hty]
        | node => rfl
        | link => rfl
      constructor
      · rw [hk, keys_dictInsert, heff, firstDedupFrom_cons]
      · intro p hp
        rcases hm p hp with hp2 | hp2
        · rcases mem_dictInsert d name _ hp2 with hp3 | hp3
          · exact Or.inl hp3
          · refine Or.inr ⟨fun hk2 => ?_, fun _ => ⟨_, by rw [hp3]⟩⟩
            rw [hp3] at hk2
            exact absurd hk2 hty
        · exact Or.inr hp2

theorem readObjectsPairs_ok_forall (kind : ObjKind) (names : List String) :
    ∀ (labels : List Label) (s : ByteStream)
      (pairs : List (Label × PyDict String PropValue)) (s2 : ByteStream),
      readObjectsPairs kind names labels s = .ok (pairs, s2) →
        ∀ pr ∈ pairs, ∃ sa sb,
          readOneObject kind names sa [] = .ok (pr.2, sb) := by
  intro labels
  induction labels with
  | nil =>
    intro s pairs s2 h
    cases h
    intro pr hpr
    cases hpr
  | cons lab labs ih =>
    intro s pairs s2 h
    simp only [readObjectsPairs] at h
    split at h
    · cases h
    · rename_i d s1 hone
      split at h
      · cases h
      · rename_i ps sb hps
        cases h
        intro pr hpr
        rcases List.mem_cons.mp hpr with rfl | hpr2
        · exact ⟨s, s1, hone⟩
        · exact ih _ _ _ hps pr hpr2

theorem readObjectProperties_keys (kind : ObjKind) (labels : List Label)
    (s : ByteStream) (props : PyDict Label (PyDict String PropValue))
    (sf : ByteStream)
    (h : readObjectProperties kind labels s = .ok (props, sf)) :
    dictKeys props = firstDedup labels := by
  unfold readObjectProperties at h
  dsimp only at h
  split at h
  · cases h
  · rename_i names s2 hnames
    split at h
    · cases h
    · rename_i pairs s3 hpairs
      cases h
      rw [keys_foldInsert, readObjectsPairs_ok_map_fst kind names labels _ _ _ hpairs]

/-! ## Claims -/

/-- C1 (amended).  `decode_file` raises exactly one format-validation
error precisely when the first four bytes, read as a little-endian int32,
differ from the sentinel 516114522; with a valid sentinel the decode
never raises a format-validation error (though it can still fail with an
OS seek error on files shorter than the 24-byte footer, or an overflow
error when the derived time index leaves the datetime range). -/
theorem decode_format_error_iff_sentinel_mismatch (data : List Nat) :
    decodeFile data = .error .formatError ↔ sentinelOf data ≠ MAGIC_NUMBER := by
  constructor
  · intro h
    unfold decodeFile at h
    dsimp only at h
    split at h
    · rename_i e hph
      cases h
      rcases parseHeader_error_magic _ hph with ⟨_, hm⟩ | ⟨habs, _⟩
      · exact hm
      · cases habs
    · split at h
      · rename_i e hpm
        cases h
        rcases parseMetadata_error _ _ hpm with habs | habs <;> cases habs
      · split at h
        · rename_i e hti
          cases h
          have := createTimeIndexAux_error _ _ _ _ hti
          cases this
        · cases h
  · intro hm
    have hm2 : (readInt { data := data, pos := 0 }).1 ≠ MAGIC_NUMBER := hm
    have hph : parseHeader { data := data, pos := 0 } = .error .formatError := by
      unfold parseHeader
      dsimp only
      rw [if_pos hm2]
    unfold decodeFile
    dsimp only
    rw [hph]

/-- C1 counterexample.  A 4-byte file holding exactly the valid sentinel:
decoding raises anyway, because the footer seek to end-of-file minus 24
bytes lands before byte 0 and fails with an OS error, refuting "for every
file whose first 4 bytes equal 516114522, decode_file never raises". -/
theorem valid_sentinel_decode_raises_counterexample :
    sentinelOf shortValidFile = MAGIC_NUMBER ∧
      decodeFile shortValidFile = .error .seekError := by
  constructor
  · decide
  · decide

/-- C2 (amended).  For every decoded structure the time-index length is
`max(period_count, 0)` — equal to the period count read from footer
index 3 whenever that count is non-negative, but 0 (not the count) when a
corrupt footer holds a negative count — and whenever consecutive entries
exist each step is exactly the report interval, with the sequence
strictly increasing when the interval is positive. -/
theorem time_index_length_and_spacing (data : List Nat) (r : DecodeResult)
    (h : decodeFile data = .ok r) :
    (r.timeIndex.length : Int) = max r.metadata.nPeriods 0 ∧
    (∀ i (hi : i < r.timeIndex.length) (hi2 : i + 1 < r.timeIndex.length),
      r.timeIndex.get ⟨i + 1, hi2⟩ - r.timeIndex.get ⟨i, hi⟩ =
        r.metadata.reportIntervalSeconds) ∧
    (0 < r.metadata.reportIntervalSeconds →
      ∀ i j (hi : i < r.timeIndex.length) (hj : j < r.timeIndex.length),
        i < j → r.timeIndex.get ⟨i, hi⟩ < r.timeIndex.get ⟨j, hj⟩) := by
  obtain ⟨s1, s2, hph, hpm, hti⟩ := decodeFile_ok_elim data r h
  obtain ⟨hlen, hget⟩ := createTimeIndex_ok _ _ _ _ hti
  refine ⟨?_, ?_, ?_⟩
  · rw [hlen, Int.toNat_eq_max]
  · intro i hi hi2
    rw [hget i hi, hget (i + 1) hi2]
    push_cast
    ring
  · intro hpos i j hi hj hij
    rw [hget i hi, hget j hj]
    have : r.metadata.reportIntervalSeconds * (i : Int) <
        r.metadata.reportIntervalSeconds * (j : Int) :=
      mul_lt_mul_of_pos_left (by exact_mod_cast hij) hpos
    omega

/-- C2 witness: the scenario file with footer period count 17 and
interval 900. -/
theorem time_index_length_and_spacing_witness :
    decodeFile scenarioFile = .ok scenarioResult ∧
    ((scenarioResult.timeIndex.length : Int) =
        max scenarioResult.metadata.nPeriods 0 ∧
      (∀ i (hi : i < scenarioResult.timeIndex.length)
          (hi2 : i + 1 < scenarioResult.timeIndex.length),
        scenarioResult.timeIndex.get ⟨i + 1, hi2⟩ -
            scenarioResult.timeIndex.get ⟨i, hi⟩ =
          scenarioResult.metadata.reportIntervalSeconds) ∧
      (0 < scenarioResult.metadata.reportIntervalSeconds →
        ∀ i j (hi : i < scenarioResult.timeIndex.length)
            (hj : j < scenarioResult.timeIndex.length),
          i < j → scenarioResult.timeIndex.get ⟨i, hi⟩ <
            scenarioResult.timeIndex.get ⟨j, hj⟩)) :=
  ⟨by decide, time_index_length_and_spacing scenarioFile scenarioResult (by decide)⟩

/-- C2 counterexample.  A well-formed decode whose footer index 3 holds
-1: the structure decodes with `n_periods = -1` while the time index has
length 0, refuting `len(time_index) == period_count` as stated. -/
theorem time_index_negative_period_counterexample :
    decodeFile negPeriodsFile = .ok negPeriodsResult ∧
      negPeriodsResult.metadata.nPeriods = -1 ∧
      negPeriodsResult.timeIndex.length = 0 := by
  refine ⟨by decide, by decide, by decide⟩

/-- C7.  The facade end date is `start + interval * (period_count - 1)`
when the period count is positive and the start date otherwise, and for a
positive period count it equals the last time-index entry
`time_index[period_count - 1]`. -/
theorem end_date_spec (data : List Nat) (r : DecodeResult)
    (h : decodeFile data = .ok r) :
    (r.metadata.nPeriods ≤ 0 → SwmmOutput.endDate r = SwmmOutput.startDate r) ∧
    (0 < r.metadata.nPeriods →
      SwmmOutput.endDate r = r.metadata.startDate +
        r.metadata.reportIntervalSeconds * (r.metadata.nPeriods - 1) ∧
      ∃ hlt : (r.metadata.nPeriods - 1).toNat < r.timeIndex.length,
        SwmmOutput.endDate r =
          r.timeIndex.get ⟨(r.metadata.nPeriods - 1).toNat, hlt⟩) := by
  obtain ⟨s1, s2, hph, hpm, hti⟩ := decodeFile_ok_elim data r h
  obtain ⟨hlen, hget⟩ := createTimeIndex_ok _ _ _ _ hti
  constructor
  · intro hle
    unfold SwmmOutput.endDate SwmmOutput.startDate
    rw [if_neg (by omega)]
  · intro hpos
    have hend : SwmmOutput.endDate r = r.metadata.startDate +
        r.metadata.reportIntervalSeconds * (r.metadata.nPeriods - 1) := by
      unfold SwmmOutput.endDate
      rw [if_pos hpos]
    refine ⟨hend, ?_, ?_⟩
    · rw [hlen]
      omega
    · rw [hget _ _, hend]
      congr 1
      congr 1
      omega

/-- C7 witness: the scenario file (17 periods, 900-second interval,
start 2020-01-01 00:00; the end date is entry 16, 2020-01-01 04:00). -/
theorem end_date_spec_witness :
    decodeFile scenarioFile = .ok scenarioResult ∧
    SwmmOutput.endDate scenarioResult = dtSecs 2020 1 1 4 0 ∧
    ((scenarioResult.metadata.nPeriods ≤ 0 →
        SwmmOutput.endDate scenarioResult = SwmmOutput.startDate scenarioResult) ∧
      (0 < scenarioResult.metadata.nPeriods →
        SwmmOutput.endDate scenarioResult = scenarioResult.metadata.startDate +
          scenarioResult.metadata.reportIntervalSeconds *
            (scenarioResult.metadata.nPeriods - 1) ∧
        ∃ hlt : (scenarioResult.metadata.nPeriods - 1).toNat <
            scenarioResult.timeIndex.length,
          SwmmOutput.endDate scenarioResult =
            scenarioResult.timeIndex.get
              ⟨(scenarioResult.metadata.nPeriods - 1).toNat, hlt⟩)) :=
  ⟨by decide, by decide, end_date_spec scenarioFile scenarioResult (by decide)⟩

/-- C8.  The facade version string is the integer-division decomposition
of the raw version into major.minor.patch (Python floor division and
remainder); 50200 yields "5.2.0" and 50100 yields "5.1.0"; and the
facade reports exactly this string for every decoded structure. -/
theorem version_string_decomposition :
    (∀ major minor patch : Int, 0 ≤ major → 0 ≤ minor → minor < 100 →
      0 ≤ patch → patch < 100 →
      versionString (major * 10000 + minor * 100 + patch) =
        toString major ++ "." ++ toString minor ++ "." ++ toString patch) ∧
    versionString 50200 = "5.2.0" ∧ versionString 50100 = "5.1.0" ∧
    (∀ (data : List Nat) (r : DecodeResult), decodeFile data = .ok r →
      SwmmOutput.version r = versionString r.header.version) := by
  refine ⟨?_, by decide, by decide, ?_⟩
  · intro major minor patch hM hm hm2 hp hp2
    unfold versionString
    rw [Int.fdiv_eq_ediv _ (by omega), Int.fdiv_eq_ediv _ (by omega),
      Int.fmod_eq_emod _ (by omega), Int.fmod_eq_emod _ (by omega)]
    have h1 : (major * 10000 + minor * 100 + patch) / 10000 = major := by omega
    have h2 : (major * 10000 + minor * 100 + patch) / 100 % 100 = minor := by omega
    have h3 : (major * 10000 + minor * 100 + patch) % 100 = patch := by omega
    rw [h1, h2, h3]
  · intro data r h
    obtain ⟨s1, s2, hph, hpm, hti⟩ := decodeFile_ok_elim data r h
    obtain ⟨hmagic, hver, hflow⟩ := parseHeader_ok_elim _ _ _ hph
    exact hver

/-- C8 witness: the decomposition applied at major 5, minor 2, patch 0. -/
theorem version_string_decomposition_witness :
    versionString (5 * 10000 + 2 * 100 + 0) =
      toString (5 : Int) ++ "." ++ toString (2 : Int) ++ "." ++ toString (0 : Int) :=
  version_string_decomposition.1 5 2 0 (by decide) (by decide) (by decide)
    (by decide) (by decide)

/-- C3 (amended).  For every successfully read property block, every
object of the block (in label order) carries a mapping whose keys are
exactly the distinct effective declared property names — all declared
names for nodes and links, the declared names other than "type" for
subcatchments, whose declared "type" code is consumed but assigned
nowhere — and in it every "type" entry is a categorical string resolved
through the kind's table (or the `UNKNOWN_<code>` fallback) while every
other entry is a float value. -/
theorem object_properties_structure (kind : ObjKind) (labels : List Label)
    (s : ByteStream) (props : PyDict Label (PyDict String PropValue))
    (sf : ByteStream)
    (h : readObjectProperties kind labels s = .ok (props, sf)) :
    ∃ names s2,
      readPropCodes (readInt s).1.toNat (readInt s).2 = .ok (names, s2) ∧
      ∀ lab ∈ labels, ∃ m, dictFind props lab = some m ∧
        dictKeys m = firstDedup (effectivePropNames kind names) ∧
        ∀ p ∈ m, wellTypedProp kind p := by
  unfold readObjectProperties at h
  dsimp only at h
  split at h
  · cases h
  · rename_i names s2 hnames
    split at h
    · cases h
    · rename_i pairs s3 hpairs
      cases h
      refine ⟨names, s2, hnames, ?_⟩
      intro lab hlab
      have hmap := readObjectsPairs_ok_map_fst kind names labels _ _ _ hpairs
      have hmem : lab ∈ pairs.map Prod.fst := by rw [hmap]; exact hlab
      have hsome : (lastVal pairs lab).isSome := (lastVal_isSome_iff _ _).mpr hmem
      cases hlv : lastVal pairs lab with
      | none => rw [hlv] at hsome; cases hsome
      | some m =>
        have hpr := lastVal_mem pairs lab hlv
        obtain ⟨sa, sb, hone⟩ :=
          readObjectsPairs_ok_forall kind names labels _ _ _ hpairs (lab, m) hpr
        have hspec := readOneObject_spec kind names sa [] m sb hone
        refine ⟨m, ?_, hspec.1, ?_⟩
        · rw [dictFind_foldInsert, hlv]
        · intro p hp
          rcases hspec.2 p hp with h0 | h0
          · cases h0
          · exact h0

/-- C3 witness: the duplicate-node-label file's node property block (one
declared code, 0 = "type", type codes 0 then 1). -/
theorem object_properties_structure_witness :
    readObjectProperties .node [[78], [78]] { data := dupLabelFile, pos := 42 } =
      .ok ([([78], [("type", PropValue.typeStr "OUTFALL")])],
        { data := dupLabelFile, pos := 58 }) ∧
    (∃ names s2,
      readPropCodes (readInt { data := dupLabelFile, pos := 42 }).1.toNat
          (readInt { data := dupLabelFile, pos := 42 }).2 = .ok (names, s2) ∧
      ∀ lab ∈ ([[78], [78]] : List Label), ∃ m,
        dictFind ([([78], [("type", PropValue.typeStr "OUTFALL")])] :
            PyDict Label (PyDict String PropValue)) lab = some m ∧
        dictKeys m = firstDedup (effectivePropNames .node names) ∧
        ∀ p ∈ m, wellTypedProp .node p) :=
  ⟨by decide, object_properties_structure .node [[78], [78]]
    { data := dupLabelFile, pos := 42 }
    [([78], [("type", PropValue.typeStr "OUTFALL")])]
    { data := dupLabelFile, pos := 58 } (by decide)⟩

/-- C3 counterexample.  A file whose subcatchment block declares exactly
one property code, 0 ("type"): decoding succeeds but the subcatchment's
mapping is empty — the declared "type" gets no entry — refuting "exactly
one entry per property code declared in that kind's block" for the
subcatchment kind. -/
theorem subcatchment_type_dropped_counterexample :
    decodeFile subcatchTypeFile = .ok subcatchTypeResult ∧
    (readInt { data := subcatchTypeFile, pos := 33 }).1 = 1 ∧
    readPropCodes 1 { data := subcatchTypeFile, pos := 37 } =
      .ok (["type"], { data := subcatchTypeFile, pos := 41 }) ∧
    dictFind subcatchTypeResult.metadata.propertiesSubcatchment [65] = some [] :=
  ⟨by decide, by decide, by decide, by decide⟩

/-- C4 (amended).  The uniform code-resolution idiom
`table[code] if code < len(table) else fallback` yields the tagged
fallback placeholder for every code at or above the table length, the
table entry for codes in range, the entry at `len + code` (Python
negative indexing, a semantic entry, not a placeholder) for codes in
`[-len, -1]`, and raises IndexError for codes below `-len`; in
particular flow-unit code 9 resolves to "UNKNOWN", -1 to "MLD", and -7
raises. -/
theorem code_resolution_behavior :
    (∀ (table : List String) (fallback : String) (code : Int),
      ((table.length : Int) ≤ code →
        resolveCode table code fallback = .ok fallback) ∧
      (0 ≤ code → code < (table.length : Int) →
        ∃ hc : code.toNat < table.length,
          resolveCode table code fallback = .ok (table.get ⟨code.toNat, hc⟩)) ∧
      (-(table.length : Int) ≤ code → code < 0 →
        ∃ hc : (code + table.length).toNat < table.length,
          resolveCode table code fallback =
            .ok (table.get ⟨(code + table.length).toNat, hc⟩)) ∧
      (code < -(table.length : Int) →
        resolveCode table code fallback = .error .indexError)) ∧
    resolveCode FLOW_UNITS 9 "UNKNOWN" = .ok "UNKNOWN" ∧
    resolveCode FLOW_UNITS (-1) "UNKNOWN" = .ok "MLD" ∧
    resolveCode FLOW_UNITS (-7) "UNKNOWN" = .error .indexError := by
  refine ⟨?_, by decide, by decide, by decide⟩
  intro table fallback code
  refine ⟨?_, ?_, ?_, ?_⟩
  · intro hge
    unfold resolveCode
    rw [if_neg (by omega)]
  · intro h0 hlt
    have hc : code.toNat < table.length := by omega
    refine ⟨hc, ?_⟩
    unfold resolveCode
    rw [if_pos hlt]
    unfold pyGetStr
    have hpy : pyIndex table.length code = code := by
      unfold pyIndex
      rw [if_neg (by omega)]
    simp only [hpy]
    rw [dif_pos ⟨h0, hc⟩]
  · intro hge hneg
    have hc : (code + table.length).toNat < table.length := by omega
    refine ⟨hc, ?_⟩
    unfold resolveCode
    rw [if_pos (by omega)]
    unfold pyGetStr
    have hpy : pyIndex table.length code = code + table.length := by
      unfold pyIndex
      rw [if_pos hneg]
    simp only [hpy]
    rw [dif_pos ⟨by omega, hc⟩]
  · intro hlt
    unfold resolveCode
    rw [if_pos (by omega)]
    unfold pyGetStr
    have hpy : pyIndex table.length code = code + table.length := by
      unfold pyIndex
      rw [if_pos (by omega)]
    simp only [hpy]
    rw [dif_neg (by omega)]

/-- C4 witness: concentration-unit code 9, above the 3-entry table,
degrades to the placeholder. -/
theorem code_resolution_behavior_witness :
    resolveCode CONCENTRATION_UNITS 9 "UNKNOWN" = .ok "UNKNOWN" :=
  (code_resolution_behavior.1 CONCENTRATION_UNITS "UNKNOWN" 9).1 (by decide)

/-- C4 counterexample.  Flow-unit code -7 is out of range of the 6-entry
table yet decoding a file carrying it raises an IndexError instead of
degrading to a placeholder, and code -1 resolves to the semantic table
entry "MLD" rather than any placeholder. -/
theorem negative_code_raises_counterexample :
    sentinelOf negFlowCodeFile = MAGIC_NUMBER ∧
    decodeFile negFlowCodeFile = .error .indexError ∧
    resolveCode FLOW_UNITS (-1) "UNKNOWN" = .ok "MLD" ∧
    "MLD" ∈ FLOW_UNITS :=
  ⟨by decide, by decide, by decide, by decide⟩

/-- C5 (amended).  For every decoded structure each kind's label-sequence
length is `max(count, 0)` — equal to the header count whenever that count
is non-negative, but 0 for a negative count — and ordinal positions are
preserved: the pollutant-unit mapping pairs the i-th pollutant label with
the i-th unit code, and (for duplicate-free labels) the property dicts
list their keys in exactly label order. -/
theorem label_lengths_and_ordinals (data : List Nat) (r : DecodeResult)
    (h : decodeFile data = .ok r) :
    (r.metadata.labelsSubcatchment.length = r.header.nSubcatchments.toNat ∧
     r.metadata.labelsNode.length = r.header.nNodes.toNat ∧
     r.metadata.labelsLink.length = r.header.nLinks.toNat ∧
     r.metadata.labelsPollutant.length = r.header.nPollutants.toNat) ∧
    ((0 ≤ r.header.nSubcatchments →
        (r.metadata.labelsSubcatchment.length : Int) = r.header.nSubcatchments) ∧
     (0 ≤ r.header.nNodes →
        (r.metadata.labelsNode.length : Int) = r.header.nNodes) ∧
     (0 ≤ r.header.nLinks →
        (r.metadata.labelsLink.length : Int) = r.header.nLinks) ∧
     (0 ≤ r.header.nPollutants →
        (r.metadata.labelsPollutant.length : Int) = r.header.nPollutants)) ∧
    (∃ units : List String, units.length = r.metadata.labelsPollutant.length ∧
      r.metadata.pollutantUnits = foldInsert (r.metadata.labelsPollutant.zip units) ∧
      (r.metadata.labelsPollutant.Nodup →
        ∀ i (hi : i < r.metadata.labelsPollutant.length) (hu : i < units.length),
          dictFind r.metadata.pollutantUnits
              (r.metadata.labelsPollutant.get ⟨i, hi⟩) =
            some (units.get ⟨i, hu⟩))) ∧
    ((r.metadata.labelsSubcatchment.Nodup →
        dictKeys r.metadata.propertiesSubcatchment = r.metadata.labelsSubcatchment) ∧
     (r.metadata.labelsNode.Nodup →
        dictKeys r.metadata.propertiesNode = r.metadata.labelsNode) ∧
     (r.metadata.labelsLink.Nodup →
        dictKeys r.metadata.propertiesLink = r.metadata.labelsLink)) := by
  obtain ⟨s1, s2, hph, hpm, hti⟩ := decodeFile_ok_elim data r h
  obtain ⟨l1, l2, l3, l4, ⟨units, hul, hpu⟩, ⟨sa1, sb1, hps⟩, ⟨sa2, sb2, hpn⟩,
    ⟨sa3, sb3, hpl⟩⟩ := parseMetadata_ok_elim _ _ _ _ hpm
  refine ⟨⟨l1, l2, l3, l4⟩, ⟨?_, ?_, ?_, ?_⟩, ?_, ?_, ?_, ?_⟩
  · intro h0; omega
  · intro h0; omega
  · intro h0; omega
  · intro h0; omega
  · refine ⟨units, by omega, hpu, ?_⟩
    intro hnd i hi hu
    have hlen : r.metadata.labelsPollutant.length ≤ units.length := by omega
    have hmap : (r.metadata.labelsPollutant.zip units).map Prod.fst =
        r.metadata.labelsPollutant := List.map_fst_zip _ _ hlen
    have hzl : i < (r.metadata.labelsPollutant.zip units).length := by
      rw [List.length_zip]
      omega
    have hgz := @List.get_zip _ _ r.metadata.labelsPollutant units ⟨i, hzl⟩
    have hnd2 : ((r.metadata.labelsPollutant.zip units).map Prod.fst).Nodup := by
      rw [hmap]
      exact hnd
    have := lastVal_of_nodup _ hnd2 i hzl
    rw [hpu, dictFind_foldInsert]
    rw [hgz] at this
    convert this using 2
  · intro hnd
    rw [readObjectProperties_keys _ _ _ _ _ hps, firstDedup_of_nodup _ hnd]
  · intro hnd
    rw [readObjectProperties_keys _ _ _ _ _ hpn, firstDedup_of_nodup _ hnd]
  · intro hnd
    rw [readObjectProperties_keys _ _ _ _ _ hpl, firstDedup_of_nodup _ hnd]

/-- C5 witness: the one-subcatchment file. -/
theorem label_lengths_and_ordinals_witness :
    subcatchTypeResult.metadata.labelsSubcatchment.length =
        subcatchTypeResult.header.nSubcatchments.toNat ∧
      subcatchTypeResult.metadata.labelsNode.length =
        subcatchTypeResult.header.nNodes.toNat ∧
      subcatchTypeResult.metadata.labelsLink.length =
        subcatchTypeResult.header.nLinks.toNat ∧
      subcatchTypeResult.metadata.labelsPollutant.length =
        subcatchTypeResult.header.nPollutants.toNat :=
  (label_lengths_and_ordinals subcatchTypeFile subcatchTypeResult (by decide)).1

/-- C5 counterexample.  A file with subcatchment count -1 decodes to an
empty label sequence, whose length 0 differs from the header count. -/
theorem negative_count_label_length_counterexample :
    decodeFile negCountFile = .ok negCountResult ∧
    negCountResult.header.nSubcatchments = -1 ∧
    negCountResult.metadata.labelsSubcatchment.length = 0 :=
  ⟨by decide, by decide, by decide⟩

theorem getD_drop_zero (l : List Nat) (n i : Nat) :
    (l.drop n).getD i 0 = l.getD (n + i) 0 := by
  rw [List.getD_eq_getD_get?, List.getD_eq_getD_get?, List.get?_drop]

theorem take_four (l : List Nat) (h : 4 ≤ l.length) :
    l.take 4 = [l.getD 0 0, l.getD 1 0, l.getD 2 0, l.getD 3 0] := by
  match l with
  | a :: b :: c :: d :: rest => simp [List.getD]
  | [] => simp at h
  | [a] => simp at h
  | [a, b] => simp at h
  | [a, b, c] => simp at h

theorem readBytes_four (s : ByteStream) (h : s.pos + 4 ≤ s.data.length) :
    s.readBytes 4 = [byteAt s 0, byteAt s 1, byteAt s 2, byteAt s 3] := by
  unfold ByteStream.readBytes byteAt
  rw [take_four _ (by simp; omega)]
  simp only [getD_drop_zero]

theorem byteAt_lt (s : ByteStream) (hbytes : ∀ b ∈ s.data, b < 256) (i : Nat) :
    byteAt s i < 256 := by
  unfold byteAt
  by_cases hc : s.pos + i < s.data.length
  · rw [List.getD_eq_get _ _ hc]
    exact hbytes _ (List.get_mem ..)
  · rw [List.getD_eq_default _ _ (by omega)]
    omega

theorem nodup_of_short (l : List Label) (h : l.length ≤ 1) : l.Nodup := by
  match l with
  | [] => simp
  | [a] => simp
  | a :: b :: t => simp at h

theorem dict_size_lt_of_dup {α : Type} (props : PyDict Label α)
    (labels : List Label) (count : Int)
    (hkeys : dictKeys props = firstDedup labels)
    (hcount : labels.length = count.toNat) (hnd : ¬ labels.Nodup) :
    (props.length : Int) < count := by
  have h2 : 2 ≤ labels.length := by
    by_contra hc
    exact hnd (nodup_of_short labels (by omega))
  have hlt : (firstDedup labels).length < labels.length :=
    length_firstDedup_lt_of_not_nodup labels hnd
  have hlp : props.length = (dictKeys props).length := by
    unfold dictKeys
    rw [List.length_map]
  rw [hkeys] at hlp
  omega

/-- C6.  With fewer than 4 bytes left the primitive int32 read yields 0
and the primitive float32 read yields 0.0 (the zero bit pattern), neither
failing; with at least 4 bytes left the float read yields the
little-endian 32-bit pattern of those bytes and the int read their
little-endian two's-complement signed value. -/
theorem primitive_read_semantics (s : ByteStream)
    (hbytes : ∀ b ∈ s.data, b < 256) :
    (s.data.length < s.pos + 4 →
      readInt s = (0, s.advance 4) ∧ readFloatBits s = (0, s.advance 4)) ∧
    (s.pos + 4 ≤ s.data.length →
      (readFloatBits s).1 = byteAt s 0 + 256 * byteAt s 1 +
        65536 * byteAt s 2 + 16777216 * byteAt s 3 ∧
      (readInt s).1 = (if byteAt s 0 + 256 * byteAt s 1 + 65536 * byteAt s 2 +
            16777216 * byteAt s 3 < 2147483648
        then (byteAt s 0 + 256 * byteAt s 1 + 65536 * byteAt s 2 +
          16777216 * byteAt s 3 : Int)
        else (byteAt s 0 + 256 * byteAt s 1 + 65536 * byteAt s 2 +
          16777216 * byteAt s 3 : Int) - 4294967296)) := by
  constructor
  · intro hshort
    have hlen : (s.readBytes 4).length < 4 := by
      simp only [ByteStream.readBytes, List.length_take, List.length_drop]
      omega
    constructor
    · unfold readInt
      dsimp only
      rw [if_pos hlen]
    · unfold readFloatBits
      dsimp only
      rw [if_pos hlen]
  · intro hlong
    have h4 : s.readBytes 4 = [byteAt s 0, byteAt s 1, byteAt s 2, byteAt s 3] :=
      readBytes_four s hlong
    have hlen : ¬ (s.readBytes 4).length < 4 := by
      rw [h4]
      simp
    have hle : leValue [byteAt s 0, byteAt s 1, byteAt s 2, byteAt s 3] =
        byteAt s 0 + 256 * byteAt s 1 + 65536 * byteAt s 2 +
          16777216 * byteAt s 3 := by
      simp only [leValue]
      ring
    constructor
    · unfold readFloatBits
      dsimp only
      rw [if_neg hlen, h4, hle]
    · unfold readInt
      dsimp only
      rw [if_neg hlen, h4, hle]
      unfold toSigned32
      have hb0 := byteAt_lt s hbytes 0
      have hb1 := byteAt_lt s hbytes 1
      have hb2 := byteAt_lt s hbytes 2
      have hb3 := byteAt_lt s hbytes 3
      have hsum : byteAt s 0 + 256 * byteAt s 1 + 65536 * byteAt s 2 +
          16777216 * byteAt s 3 < 4294967296 := by omega
      dsimp only
      rw [Nat.mod_eq_of_lt hsum]
      split_ifs with hc <;> push_cast <;> ring

/-- C6 witness: the sentinel bytes decode to 516114522; a 2-byte stream
yields the zero default. -/
theorem primitive_read_semantics_witness :
    (readInt { data := [90, 72, 195, 30], pos := 0 }).1 = 516114522 ∧
    (readInt { data := [90, 72], pos := 0 }).1 = 0 := by
  constructor
  · have h := (primitive_read_semantics { data := [90, 72, 195, 30], pos := 0 }
      (by decide)).2 (by decide)
    rw [h.2]
    decide
  · have h := (primitive_read_semantics { data := [90, 72], pos := 0 }
      (by decide)).1 (by decide)
    rw [h.1]

/-- C9.  Reading a date/time never fails: the five int32 fields yield
their calendar timestamp when they form a valid one and the fixed
fallback 2000-01-01 00:00 otherwise, the stream advancing by the five
reads either way. -/
theorem read_datetime_spec (s : ByteStream) (y mo d h mi : Int)
    (s5 : ByteStream) (hf : readNInts 5 s = ([y, mo, d, h, mi], s5)) :
    (validDatetime y mo d h mi = true →
      readDatetime s = (dtSecs y mo d h mi, s5)) ∧
    (validDatetime y mo d h mi = false →
      readDatetime s = (dtSecs 2000 1 1 0 0, s5)) := by
  simp only [readNInts] at hf
  rw [Prod.mk.injEq] at hf
  obtain ⟨hlist, hs5⟩ := hf
  simp only [List.cons.injEq, and_true] at hlist
  obtain ⟨h1, h2, h3, h4, h5⟩ := hlist
  constructor
  · intro hv
    unfold readDatetime
    dsimp only
    rw [h1, h2, h3, h4, h5, hs5, if_pos hv]
  · intro hv
    unfold readDatetime
    dsimp only
    rw [h1, h2, h3, h4, h5, hs5, if_neg (by rw [hv]; exact Bool.false_ne_true)]

/-- C9 witness: the fields (2020, 13, 1, 0, 0) — month 13 — fall back to
2000-01-01 00:00 without failing. -/
theorem read_datetime_spec_witness :
    readNInts 5 { data := bytesOfInts [2020, 13, 1, 0, 0], pos := 0 } =
      ([2020, 13, 1, 0, 0],
        { data := bytesOfInts [2020, 13, 1, 0, 0], pos := 20 }) ∧
    validDatetime 2020 13 1 0 0 = false ∧
    readDatetime { data := bytesOfInts [2020, 13, 1, 0, 0], pos := 0 } =
      (dtSecs 2000 1 1 0 0,
        { data := bytesOfInts [2020, 13, 1, 0, 0], pos := 20 }) := by
  refine ⟨by decide, by decide, ?_⟩
  exact (read_datetime_spec { data := bytesOfInts [2020, 13, 1, 0, 0], pos := 0 }
    2020 13 1 0 0 _ (by decide)).2 (by decide)

/-- C10.  Property mappings and the pollutant-unit mapping are keyed by
object label: key lists are exactly the distinct labels in first-seen
order; the dict built from the per-object assignments answers every
lookup with the value of the last occurrence of that label, so duplicate
labels collapse into one key holding the last occurrence's values and
make the mapping strictly smaller than the header count. -/
theorem label_keyed_mappings_collapse :
    (∀ (data : List Nat) (r : DecodeResult), decodeFile data = .ok r →
      (dictKeys r.metadata.propertiesSubcatchment =
          firstDedup r.metadata.labelsSubcatchment ∧
        dictKeys r.metadata.propertiesNode = firstDedup r.metadata.labelsNode ∧
        dictKeys r.metadata.propertiesLink = firstDedup r.metadata.labelsLink ∧
        dictKeys r.metadata.pollutantUnits =
          firstDedup r.metadata.labelsPollutant) ∧
      ((¬ r.metadata.labelsSubcatchment.Nodup →
          (r.metadata.propertiesSubcatchment.length : Int) <
            r.header.nSubcatchments) ∧
       (¬ r.metadata.labelsNode.Nodup →
          (r.metadata.propertiesNode.length : Int) < r.header.nNodes) ∧
       (¬ r.metadata.labelsLink.Nodup →
          (r.metadata.propertiesLink.length : Int) < r.header.nLinks) ∧
       (¬ r.metadata.labelsPollutant.Nodup →
          (r.metadata.pollutantUnits.length : Int) < r.header.nPollutants))) ∧
    (∀ (kind : ObjKind) (names : List String) (labels : List Label)
        (s : ByteStream) (pairs : List (Label × PyDict String PropValue))
        (s2 : ByteStream),
      readObjectsPairs kind names labels s = .ok (pairs, s2) →
        pairs.map Prod.fst = labels ∧
        ∀ lab, dictFind (foldInsert pairs) lab = lastVal pairs lab) ∧
    (∀ (ps : List (Label × PyDict String PropValue)) (i : Nat)
        (h : i < ps.length),
      (∀ j (hj : j < ps.length), i < j →
          (ps.get ⟨j, hj⟩).1 ≠ (ps.get ⟨i, h⟩).1) →
      dictFind (foldInsert ps) ((ps.get ⟨i, h⟩).1) =
        some ((ps.get ⟨i, h⟩).2)) := by
  refine ⟨?_, ?_, ?_⟩
  · intro data r h
    obtain ⟨s1, s2, hph, hpm, hti⟩ := decodeFile_ok_elim data r h
    obtain ⟨l1, l2, l3, l4, ⟨units, hul, hpu⟩, ⟨sa1, sb1, hps⟩, ⟨sa2, sb2, hpn⟩,
      ⟨sa3, sb3, hpl⟩⟩ := parseMetadata_ok_elim _ _ _ _ hpm
    have hpkeys : dictKeys r.metadata.pollutantUnits =
        firstDedup r.metadata.labelsPollutant := by
      rw [hpu, keys_foldInsert, List.map_fst_zip _ _ (by omega)]
    refine ⟨⟨readObjectProperties_keys _ _ _ _ _ hps,
        readObjectProperties_keys _ _ _ _ _ hpn,
        readObjectProperties_keys _ _ _ _ _ hpl, hpkeys⟩,
      ?_, ?_, ?_, ?_⟩
    · exact dict_size_lt_of_dup _ _ _ (readObjectProperties_keys _ _ _ _ _ hps) l1
    · exact dict_size_lt_of_dup _ _ _ (readObjectProperties_keys _ _ _ _ _ hpn) l2
    · exact dict_size_lt_of_dup _ _ _ (readObjectProperties_keys _ _ _ _ _ hpl) l3
    · exact dict_size_lt_of_dup _ _ _ hpkeys l4
  · intro kind names labels s pairs s2 hpairs
    exact ⟨readObjectsPairs_ok_map_fst kind names labels _ _ _ hpairs,
      fun lab => dictFind_foldInsert pairs lab⟩
  · intro ps i h hlast
    rw [dictFind_foldInsert]
    exact lastVal_last_occurrence ps i h hlast

/-- C10 witness.  Two nodes both labelled "N" collapse to one key
holding the second node's values (type OUTFALL), with mapping size 1
below the header count 2; and two pollutants labelled with the distinct
invalid bytes 0x80 and 0x81 — equal as decoded strings, both U+FFFD —
likewise collapse to one key holding the last occurrence's unit, size 1
below the header count 2. -/
theorem label_keyed_mappings_collapse_witness :
    (decodeFile dupLabelFile = .ok dupLabelResult ∧
      ¬ dupLabelResult.metadata.labelsNode.Nodup ∧
      (dupLabelResult.metadata.propertiesNode.length : Int) <
        dupLabelResult.header.nNodes ∧
      dictFind dupLabelResult.metadata.propertiesNode [78] =
        some [("type", PropValue.typeStr "OUTFALL")]) ∧
    (decodeFile fffdLabelFile = .ok fffdLabelResult ∧
      fffdLabelResult.metadata.labelsPollutant = [[65533], [65533]] ∧
      ¬ fffdLabelResult.metadata.labelsPollutant.Nodup ∧
      (fffdLabelResult.metadata.pollutantUnits.length : Int) <
        fffdLabelResult.header.nPollutants ∧
      fffdLabelResult.metadata.pollutantUnits = [([65533], "UG")]) := by
  constructor
  · refine ⟨by decide, by decide, ?_, by decide⟩
    exact (label_keyed_mappings_collapse.1 dupLabelFile dupLabelResult
      (by decide)).2.2.1 (by decide)
  · refine ⟨by decide, by decide, by decide, ?_, by decide⟩
    exact (label_keyed_mappings_collapse.1 fffdLabelFile fffdLabelResult
      (by decide)).2.2.2.2 (by decide)

end SwmmUtils
